import Mathlib

/-!
Shallow embedding of the event-processing and risk-scoring pipeline of the
Supply-Chain-Disruption-Predictor repository.

Modelling conventions, used throughout:
* Python floats are modelled as rationals (`ℚ`); all numeric literals of the
  source are carried over exactly.
* Python dicts used as lookup tables are association lists in insertion
  order; `dict.get(k, d)` is `(List.lookup k tbl).getD d`.
* Python strings are Lean `String`s; character-level work happens on the
  underlying `List Char`.  Case mapping follows the source's ASCII usage
  (`Char.toLower` / `Char.toUpper`).
* An MD5 digest is modelled by the hashed string itself; that is, MD5 is
  treated as injective, so two digests are equal exactly when the hashed
  contents are equal.
* Python `x or default` on a float field is `pyFloatOr` (note `0.0` is falsy),
  and on a string field is `pyStrOr` (the empty string is falsy).
-/

attribute [local semireducible] Rat.mul Rat.inv Rat.add Rat.sub Rat.ofScientific

/-- Python whitespace (the ASCII part of `\s` and of `str.strip`):
space, tab, newline, carriage return, vertical tab, form feed. -/
def isPyWs (c : Char) : Bool :=
  c == ' ' || c == '\t' || c == '\n' || c == '\r' || c == '\x0b' || c == '\x0c'

/-- Python word character (the ASCII part of `\w`): alphanumeric or underscore. -/
def isWordChar (c : Char) : Bool :=
  c.isAlphanum || c == '_'

/-- Control characters removed by the normalizer's regex range. -/
def isCtrlChar (c : Char) : Bool :=
  c.toNat ≤ 31 || (127 ≤ c.toNat && c.toNat ≤ 159)

/-- Does the list start with the given prefix of characters. -/
def startsWithCl : List Char → List Char → Bool
  | [], _ => true
  | _ :: _, [] => false
  | a :: as, b :: bs => a == b && startsWithCl as bs

/-- Python substring containment: does `needle` occur contiguously in the list. -/
def containsCl (needle : List Char) : List Char → Bool
  | [] => needle.isEmpty
  | c :: rest => startsWithCl needle (c :: rest) || containsCl needle rest

/-- Python `needle in hay` on strings. -/
def strContains (hay needle : String) : Bool :=
  containsCl needle.data hay.data

/-- Lowercase a char list (ASCII case mapping, as the source uses it). -/
def lcList (l : List Char) : List Char :=
  l.map Char.toLower

/-- Python `s.lower()`. -/
def lcStr (s : String) : String :=
  ⟨lcList s.data⟩

/-- Python `s.strip()` on a char list: drop whitespace from both ends. -/
def stripChars (l : List Char) : List Char :=
  ((l.dropWhile isPyWs).reverse.dropWhile isPyWs).reverse

/-- Python `s.strip()`. -/
def stripStr (s : String) : String :=
  ⟨stripChars s.data⟩

/-- Python `s.lower().strip()`, the form used for table keys. -/
def lcStripStr (s : String) : String :=
  stripStr (lcStr s)

/-- Helper for `collapseWs`: the flag records whether the previous character
was whitespace (so that a whole whitespace run yields a single space). -/
def collapseWsAux : Bool → List Char → List Char
  | _, [] => []
  | prevWs, c :: rest =>
    if isPyWs c then
      if prevWs then collapseWsAux true rest
      else ' ' :: collapseWsAux true rest
    else c :: collapseWsAux false rest

/-- Python `re.sub(r'\s+', ' ', s)`: replace each whitespace run by one space. -/
def collapseWs (l : List Char) : List Char :=
  collapseWsAux false l

/-- Recursion core of `splitWs`; the fuel dominates the input length and
every step consumes at least one character, so it never runs out. -/
def splitWsF : Nat → List Char → List (List Char)
  | 0, _ => []
  | _ + 1, [] => []
  | fuel + 1, c :: rest =>
    if isPyWs c then splitWsF fuel rest
    else (c :: rest.takeWhile (fun d => !isPyWs d))
      :: splitWsF fuel (rest.dropWhile (fun d => !isPyWs d))

/-- Python `s.split()` (no argument): whitespace-separated words, empties
dropped. -/
def splitWs (l : List Char) : List (List Char) :=
  splitWsF l.length l

/-- Helper for `splitOnChar`: accumulate the current (reversed) piece. -/
def splitOnCharAux (sep : Char) (cur : List Char) : List Char → List (List Char)
  | [] => [cur.reverse]
  | c :: rest =>
    if c = sep then cur.reverse :: splitOnCharAux sep [] rest
    else splitOnCharAux sep (c :: cur) rest

/-- Python `s.split(sep)` for a one-character separator: empty pieces kept,
always at least one piece. -/
def splitOnChar (sep : Char) (l : List Char) : List (List Char) :=
  splitOnCharAux sep [] l

/-- Helper for `findWords`: accumulate the current (reversed) word-char run. -/
def findWordsAux (cur : List Char) : List Char → List (List Char)
  | [] => if cur.isEmpty then [] else [cur.reverse]
  | c :: rest =>
    if isWordChar c then findWordsAux (c :: cur) rest
    else if cur.isEmpty then findWordsAux [] rest
    else cur.reverse :: findWordsAux [] rest

/-- Python `re.findall(r'\b\w+\b', s)`: the maximal word-character runs. -/
def findWords (l : List Char) : List (List Char) :=
  findWordsAux [] l

/-- Python `' '.join(ws)` on char-list words. -/
def joinSpace (ws : List (List Char)) : List Char :=
  (ws.intersperse [' ']).flatten

/-- Python string comparison: lexicographic by code point. -/
def lexLe : List Char → List Char → Bool
  | [], _ => true
  | _ :: _, [] => false
  | a :: as, b :: bs =>
    if a.toNat < b.toNat then true
    else if b.toNat < a.toNat then false
    else lexLe as bs

/-- The ordering `sorted` uses on strings. -/
def strLe (a b : String) : Prop :=
  lexLe a.data b.data = true

instance : DecidableRel strLe :=
  fun a b => inferInstanceAs (Decidable (lexLe a.data b.data = true))

/-- Python `str.capitalize()`: first char uppercased, the rest lowercased. -/
def capWord : List Char → List Char
  | [] => []
  | c :: t => c.toUpper :: lcList t

/-- Python falsy-or on an optional float: `None` and `0.0` give the default. -/
def pyFloatOr (v : Option ℚ) (d : ℚ) : ℚ :=
  match v with
  | none => d
  | some x => if x = 0 then d else x

/-- Python falsy-or on a string: the empty string gives the default. -/
def pyStrOr (v d : String) : String :=
  if v = "" then d else v

namespace RC

/-!
Embedding of `src/risk_calculator.py` (class `RiskCalculator`): the regional /
sector / event-type weight tables, `calculate_risks` with all its helpers, and
`calculate_time_adjusted_risk`.  An event row carries the fields the module
reads; an optional field that Python would hold as `None` is `none` / `""`.
-/

structure Event where
  title : String
  description : String
  severity : Option ℚ
  location : String
  event_type : String
deriving DecidableEq

/-- Regional risk weights (`RiskCalculator.regional_weights`). -/
def regional_weights : List (String × ℚ) :=
  [("China", 9/10), ("Taiwan", 8/10), ("South Korea", 7/10), ("Japan", 6/10),
   ("Singapore", 7/10), ("Germany", 6/10), ("Netherlands", 5/10),
   ("United States", 7/10), ("Mexico", 5/10), ("Vietnam", 6/10),
   ("India", 6/10), ("Thailand", 5/10), ("Malaysia", 5/10), ("Global", 8/10)]

/-- Sector vulnerability scores (`RiskCalculator.sector_vulnerability`);
insertion order matters for the first-five default below. -/
def sector_vulnerability : List (String × ℚ) :=
  [("automotive", 8/10), ("electronics", 9/10), ("pharmaceuticals", 7/10),
   ("food_beverage", 6/10), ("textiles", 5/10), ("construction", 6/10),
   ("energy", 8/10), ("retail", 7/10), ("aerospace", 8/10), ("chemicals", 7/10)]

/-- Event type impact multipliers (`RiskCalculator.event_multipliers`). -/
def event_multipliers : List (String × ℚ) :=
  [("news", 1), ("weather", 12/10), ("economic", 11/10), ("geopolitical", 13/10),
   ("natural_disaster", 15/10), ("cyber_attack", 14/10), ("pandemic", 16/10)]

/-- Supply chain connectivity (`RiskCalculator._get_connected_regions`). -/
def connections : List (String × List String) :=
  [("China", ["Taiwan", "South Korea", "Japan", "Singapore", "United States"]),
   ("Taiwan", ["China", "South Korea", "Japan", "United States"]),
   ("Germany", ["Netherlands", "France", "Italy", "Poland"]),
   ("United States", ["Mexico", "Canada", "China", "Germany"]),
   ("Singapore", ["Malaysia", "Thailand", "Indonesia", "China"]),
   ("Japan", ["China", "South Korea", "Taiwan", "United States"])]

def get_connected_regions (primary : String) : List String :=
  (connections.lookup primary).getD []

structure RegionRisk where
  region : String
  risk_level : ℚ
  impact_type : String
  description : String
deriving DecidableEq

structure SectorRisk where
  sector : String
  risk_level : ℚ
  vulnerability : ℚ
  description : String
deriving DecidableEq

/-- `RiskCalculator._calculate_regional_risks`: the direct entry for the event
location (when it is a key of the weight table) followed by damped indirect
entries for connected regions. -/
def calculate_regional_risks (severity : ℚ) (location : String) (multiplier : ℚ)
    (etypeRaw : String) : List RegionRisk :=
  let direct : List RegionRisk :=
    if location ≠ "" then
      match regional_weights.lookup location with
      | some w =>
        [{ region := location, risk_level := min (severity * w * multiplier) 1,
           impact_type := "direct",
           description := "Direct impact from " ++ etypeRaw ++ " event" }]
      | none => []
    else []
  let indirect : List RegionRisk :=
    (get_connected_regions location).filterMap fun r =>
      match regional_weights.lookup r with
      | some w =>
        some { region := r, risk_level := min (severity * w * multiplier * (6/10)) (8/10),
               impact_type := "indirect",
               description := "Indirect impact through supply chain connections" }
      | none => none
  direct ++ indirect

/-- Sector keywords (`RiskCalculator._identify_relevant_sectors`). -/
def rc_sector_keywords : List (String × List String) :=
  [("automotive", ["car", "vehicle", "auto", "automotive", "toyota", "ford", "gm"]),
   ("electronics", ["chip", "semiconductor", "electronics", "computer", "phone", "apple", "samsung"]),
   ("pharmaceuticals", ["drug", "medicine", "pharmaceutical", "vaccine", "pfizer", "healthcare"]),
   ("food_beverage", ["food", "agriculture", "crop", "grain", "meat", "dairy", "beverage"]),
   ("textiles", ["textile", "clothing", "fabric", "cotton", "fashion", "apparel"]),
   ("construction", ["construction", "building", "cement", "steel", "lumber", "housing"]),
   ("energy", ["oil", "gas", "energy", "power", "electricity", "renewable", "solar"]),
   ("retail", ["retail", "store", "shopping", "consumer", "walmart", "amazon"])]

def identify_relevant_sectors (eventText : String) : List String :=
  rc_sector_keywords.filterMap fun p =>
    if p.2.any (fun kw => strContains eventText kw) then some p.1 else none

/-- Sector-by-event-type adjustment table
(`RiskCalculator._apply_sector_event_adjustments`). -/
def sector_event_adjustments : List (String × List (String × ℚ)) :=
  [("weather", [("food_beverage", 13/10), ("energy", 12/10), ("construction", 12/10)]),
   ("economic", [("automotive", 12/10), ("electronics", 11/10), ("retail", 13/10)]),
   ("geopolitical", [("electronics", 14/10), ("automotive", 12/10), ("energy", 13/10)])]

def apply_sector_event_adjustments (base_risk : ℚ) (sector etype : String) : ℚ :=
  match sector_event_adjustments.lookup etype with
  | some tbl =>
    match tbl.lookup sector with
    | some m => base_risk * m
    | none => base_risk
  | none => base_risk

/-- `RiskCalculator._calculate_sector_risks`: sectors matched by keyword in the
lowercased `title + " " + description`, or the first five table sectors when no
keyword matches. -/
def calculate_sector_risks (severity : ℚ) (multiplier : ℚ) (ev : Event) :
    List SectorRisk :=
  let eventText := lcStr (ev.title ++ " " ++ ev.description)
  let relevant := identify_relevant_sectors eventText
  let relevant := if relevant.isEmpty then (sector_vulnerability.map Prod.fst).take 5
                  else relevant
  relevant.filterMap fun s =>
    match sector_vulnerability.lookup s with
    | some vul =>
      let sector_risk := severity * vul * multiplier
      let sector_risk := apply_sector_event_adjustments sector_risk s ev.event_type
      some { sector := s, risk_level := min sector_risk 1, vulnerability := vul,
             description := "Impact on " ++ s ++ " sector from " ++ ev.event_type
               ++ " disruption" }
    | none => none

structure RiskFactor where
  type : String
  description : String
  severity : String
deriving DecidableEq

structure Assessment where
  region : String
  sector : String
  risk_level : ℚ
  risk_factors : List RiskFactor
  recommendations : String
deriving DecidableEq

/-- `RiskCalculator._generate_risk_factors`. -/
def generate_risk_factors (r : RegionRisk) (s : SectorRisk) : List RiskFactor :=
  (if r.risk_level > 6/10 then
    [{ type := "regional", description := "High exposure in " ++ r.region,
       severity := "high" }]
   else []) ++
  (if s.risk_level > 6/10 then
    [{ type := "sectoral",
       description := "High vulnerability in " ++ s.sector ++ " sector",
       severity := "high" }]
   else []) ++
  (if r.risk_level > 5/10 ∧ s.risk_level > 5/10 then
    [{ type := "interaction",
       description := "Combined regional and sectoral exposure amplifies risk",
       severity := "medium" }]
   else [])

/-- Sector-specific recommendation boilerplate
(`RiskCalculator._generate_recommendations`). -/
def sector_recommendations : List (String × List String) :=
  [("automotive", ["Consider alternative semiconductor sources",
                   "Review just-in-time delivery schedules"]),
   ("electronics", ["Secure component inventory", "Evaluate design alternatives"]),
   ("pharmaceuticals", ["Ensure API supply security", "Review regulatory compliance"]),
   ("food_beverage", ["Monitor commodity prices", "Secure packaging materials"]),
   ("energy", ["Review fuel supply contracts", "Consider renewable alternatives"])]

def generate_recommendations (region sector : String) (risk_level : ℚ) : String :=
  let recs : List String :=
    if risk_level > 7/10 then
      ["Immediate action required: Review and activate contingency plans",
       "Diversify suppliers away from " ++ region ++ " if heavily concentrated",
       "Increase inventory buffers for critical materials",
       "Establish alternative supply routes"]
    else if risk_level > 5/10 then
      ["Monitor situation closely and prepare contingency measures",
       "Assess supplier concentration in " ++ region,
       "Review contracts for force majeure clauses",
       "Consider temporary inventory increases"]
    else
      ["Continue monitoring for escalation",
       "Review supplier risk assessments",
       "Maintain standard inventory levels"]
  let recs := recs ++ (sector_recommendations.lookup sector).getD []
  String.intercalate "; " (recs.take 5)

/-- `RiskCalculator._combine_risks`: average the two levels, boost by 1.1 for a
direct regional impact, clamp above at 1.  Recommendations are generated from
the unclamped combined level, exactly as in the source. -/
def combine_risks (r : RegionRisk) (s : SectorRisk) : Assessment :=
  let combined := (r.risk_level + s.risk_level) / 2
  let combined := if r.impact_type = "direct" then combined * (11/10) else combined
  { region := r.region, sector := s.sector, risk_level := min combined 1,
    risk_factors := generate_risk_factors r s,
    recommendations := generate_recommendations r.region s.sector combined }

/-- `RiskCalculator.calculate_risks`: combine every regional risk with every
sector risk, keep those strictly above the 0.3 significance threshold, sort by
risk level descending, return the top 20. -/
def calculate_risks (ev : Event) : List Assessment :=
  let event_severity := pyFloatOr ev.severity (1/2)
  let event_location := pyStrOr ev.location "Global"
  let event_type := pyStrOr ev.event_type "news"
  let type_multiplier := (event_multipliers.lookup event_type).getD 1
  let regional_risks :=
    calculate_regional_risks event_severity event_location type_multiplier ev.event_type
  let sector_risks := calculate_sector_risks event_severity type_multiplier ev
  let combined := regional_risks.flatMap fun r => sector_risks.map fun s => combine_risks r s
  let significant := combined.filter fun a => a.risk_level > 3/10
  let sorted := List.insertionSort (fun a b : Assessment => b.risk_level ≤ a.risk_level)
    significant
  sorted.take 20

/-- Time decay factors keyed by elapsed seconds
(`RiskCalculator.time_decay_factors` with the bucket bounds of
`calculate_time_adjusted_risk`: 24 hours, 7 days, 4 weeks). -/
def time_decay_factor (diff : ℚ) : ℚ :=
  if diff ≤ 86400 then 1
  else if diff ≤ 604800 then 8/10
  else if diff ≤ 2419200 then 6/10
  else 4/10

/-- `RiskCalculator.calculate_time_adjusted_risk`; instants are seconds on the
rational line and the elapsed time is `now - event_timestamp`. -/
def calculate_time_adjusted_risk (base_risk : ℚ) (now event_timestamp : ℚ) : ℚ :=
  base_risk * time_decay_factor (now - event_timestamp)

end RC

namespace RA

/-!
Embedding of `src/services/risk-assessment/main.py` (class `RiskCalculator`
there): `_calculate_base_risk`, `_get_location_risk`, `_calculate_confidence`
and the static weight tables they read.
-/

structure Event where
  severity : Option ℚ
  event_type : String
  location : String
  impact_sectors : List String
deriving DecidableEq

def sector_weights : List (String × ℚ) :=
  [("electronics", 9/10), ("automotive", 85/100), ("pharmaceuticals", 8/10),
   ("energy", 75/100), ("agriculture", 7/10), ("retail", 6/10),
   ("manufacturing", 65/100), ("transportation", 7/10), ("finance", 5/10)]

def region_weights : List (String × ℚ) :=
  [("asia", 8/10), ("europe", 6/10), ("north_america", 5/10),
   ("south_america", 7/10), ("africa", 75/100), ("middle_east", 85/100),
   ("oceania", 55/100)]

/-- Keywords that mark a location string as high risk (`_get_location_risk`). -/
def high_risk_keywords : List String :=
  ["war", "conflict", "strike", "disaster", "hurricane", "earthquake"]

/-- `RiskCalculator._get_location_risk`: 0.8 when the lowercased location
contains a high-risk keyword, 0.4 otherwise. -/
def get_location_risk (location : String) : ℚ :=
  if high_risk_keywords.any (fun kw => strContains (lcStr location) kw) then 8/10
  else 4/10

/-- Event type multipliers local to `_calculate_base_risk`. -/
def base_type_multipliers : List (String × ℚ) :=
  [("weather", 8/10), ("economic", 7/10), ("news", 6/10), ("geopolitical", 9/10)]

/-- `RiskCalculator._calculate_base_risk`: severity (falsy-defaulted to 0.5)
times the event-type multiplier (default 0.6), averaged with the
keyword-derived location risk, capped above at 1. -/
def calculate_base_risk (e : Event) : ℚ :=
  let base_risk := pyFloatOr e.severity (1/2)
  let type_multiplier := (base_type_multipliers.lookup (lcStr e.event_type)).getD (6/10)
  let base_risk := base_risk * type_multiplier
  let location_risk := get_location_risk e.location
  let base_risk := (base_risk + location_risk) / 2
  min 1 base_risk

/-- `RiskCalculator._calculate_confidence`: base 0.7, plus 0.1 for a non-None
severity, a truthy location, and truthy impact sectors, capped above at 1.
The sector and region parameters of the source are unused there. -/
def calculate_confidence (e : Event) : ℚ :=
  let confidence : ℚ := 7/10
  let confidence := if e.severity.isSome then confidence + 1/10 else confidence
  let confidence := if e.location ≠ "" then confidence + 1/10 else confidence
  let confidence := if ¬ e.impact_sectors.isEmpty then confidence + 1/10 else confidence
  min 1 confidence

end RA

namespace DV

/-!
Embedding of `src/services/data-collector/data_validation.py`, class
`DataQualityValidator`: `validate_event` and its per-field helpers.  Each
helper returns the score contribution together with its error and warning
messages (the interpolated numbers of the source's f-strings are elided from
the message texts; only the presence of a message matters to the result).
An event dict is modelled by a record; a field Python would hold as `None` or
miss entirely is `none` / `""` / `[]`.
-/

structure Event where
  title : String
  description : String
  severity : Option ℚ
  location : String
  impact_sectors : List String
  url : String
deriving DecidableEq

structure FieldQuality where
  score : ℚ
  errors : List String
  warnings : List String
deriving DecidableEq

structure ValidationResult where
  is_valid : Bool
  quality_score : ℚ
  errors : List String
  warnings : List String
deriving DecidableEq

/-- Severity keyword lexicons (`validation_rules["severity_keywords"]`). -/
def severity_keywords_high : List String :=
  ["crisis", "emergency", "critical", "severe", "major", "catastrophic"]

def severity_keywords_medium : List String :=
  ["disruption", "delay", "shortage", "impact", "concern", "warning"]

def severity_keywords_low : List String :=
  ["minor", "slight", "limited", "temporary", "brief"]

/-- Sector keyword lexicons (`validation_rules["sector_keywords"]`). -/
def dv_sector_keywords : List (String × List String) :=
  [("automotive", ["car", "auto", "vehicle", "toyota", "ford", "gm"]),
   ("electronics", ["chip", "semiconductor", "electronics", "tech"]),
   ("energy", ["oil", "gas", "energy", "power", "electricity"]),
   ("transportation", ["shipping", "logistics", "freight", "cargo", "port"]),
   ("manufacturing", ["factory", "plant", "production", "manufacturing"]),
   ("agriculture", ["food", "farming", "crop", "grain", "livestock"])]

def supply_chain_terms : List String :=
  ["supply", "chain", "logistics", "shipping", "port", "manufacturing", "disruption"]

def known_locations : List String :=
  ["china", "usa", "germany", "singapore", "los angeles", "shanghai", "rotterdam"]

/-- Is an ASCII uppercase letter, as the first-character check uses it. -/
def isAsciiUpper (c : Char) : Bool :=
  'A' ≤ c && c ≤ 'Z'

def isAsciiLower (c : Char) : Bool :=
  'a' ≤ c && c ≤ 'z'

/-- Regex piece `[A-Z][a-z]+` (greedy, so the lowercase run is maximal);
returns the remainder on success. -/
def matchUpperLower : List Char → Option (List Char)
  | c :: d :: rest =>
    if isAsciiUpper c && isAsciiLower d then some (rest.dropWhile isAsciiLower)
    else none
  | _ => none

/-- Literal match; returns the remainder on success. -/
def matchLit (lit : List Char) (l : List Char) : Option (List Char) :=
  if startsWithCl lit l then some (l.drop lit.length) else none

/-- A `\b` boundary right after a word character: end of string or a
non-word character. -/
def boundaryHere (l : List Char) : Bool :=
  match l with
  | [] => true
  | c :: _ => ¬ isWordChar c

/-- Pattern `\b[A-Z][a-z]+ [A-Z][a-z]+\b` anchored at the current position. -/
def locPattern1 (l : List Char) : Bool :=
  match matchUpperLower l with
  | some r1 =>
    match matchLit [' '] r1 with
    | some r2 =>
      match matchUpperLower r2 with
      | some r3 => boundaryHere r3
      | none => false
    | none => false
  | none => false

/-- Pattern `\b[A-Z][a-z]+, [A-Z]{2}\b` anchored at the current position. -/
def locPattern2 (l : List Char) : Bool :=
  match matchUpperLower l with
  | some r1 =>
    match matchLit [',', ' '] r1 with
    | some (a :: b :: r3) => isAsciiUpper a && isAsciiUpper b && boundaryHere r3
    | _ => false
  | none => false

/-- Pattern `\b[A-Z][a-z]+ W\b` for a literal word `W` (Canal / Port). -/
def locPatternLit (w : List Char) (l : List Char) : Bool :=
  match matchUpperLower l with
  | some r1 =>
    match matchLit w r1 with
    | some r2 => boundaryHere r2
    | none => false
  | none => false

/-- `re.search` over the string for an anchored pattern whose first character
is a word character (so the leading `\b` demands a non-word predecessor);
the flag records whether the previous character was a word character. -/
def searchPat (p : List Char → Bool) : Bool → List Char → Bool
  | _, [] => false
  | prevWord, c :: rest =>
    (!prevWord && p (c :: rest)) || searchPat p (isWordChar c) rest

/-- Does the location match one of the four structured-location regexes of
`validation_rules["location_patterns"]`. -/
def matchesLocationPattern (l : List Char) : Bool :=
  searchPat locPattern1 false l || searchPat locPattern2 false l ||
  searchPat (locPatternLit [' ', 'C', 'a', 'n', 'a', 'l']) false l ||
  searchPat (locPatternLit [' ', 'P', 'o', 'r', 't']) false l

/-- `DataQualityValidator._validate_title`. -/
def validate_title (title : String) : FieldQuality :=
  let title_len := (stripChars title.data).length
  let lengthScore : ℚ := if title_len < 10 then 0
                         else if title_len > 200 then 15/100 else 2/10
  let lengthErrors := if title_len < 10 then ["Title too short"] else []
  let lengthWarnings := if ¬ title_len < 10 ∧ title_len > 200 then ["Title very long"]
                        else []
  let meaningful_chars := (title.data.filter (fun c => isWordChar c || isPyWs c)).length
  let contentScore : ℚ :=
    if (stripChars title.data).isEmpty then 0
    else
      (if (meaningful_chars : ℚ) / (title_len : ℚ) > 7/10 then 1/10 else 0)
      + (match title.data with
         | c :: _ => if isAsciiUpper c then 5/100 else 0
         | [] => 0)
      + (if supply_chain_terms.any (fun t => strContains (lcStr title) t) then 1/10
         else 0)
  let contentWarnings :=
    if (stripChars title.data).isEmpty then []
    else if ¬ (meaningful_chars : ℚ) / (title_len : ℚ) > 7/10 then
      ["Title contains many special characters"]
    else []
  { score := lengthScore + contentScore,
    errors := lengthErrors,
    warnings := lengthWarnings ++ contentWarnings }

/-- `DataQualityValidator._validate_description`. -/
def validate_description (description : String) : FieldQuality :=
  let desc_len := (stripChars description.data).length
  let lengthScore : ℚ := if desc_len < 20 then 0
                         else if desc_len > 2000 then 25/100 else 3/10
  let lengthErrors := if desc_len < 20 then ["Description too short"] else []
  let lengthWarnings := if ¬ desc_len < 20 ∧ desc_len > 2000 then
                          ["Description very long"]
                        else []
  let contentScore : ℚ :=
    if (stripChars description.data).isEmpty then 0
    else
      (if (splitOnChar '.' description.data).length > 1 then 1/10 else 0)
      + (if (splitWs description.data).length > 10 then 1/10 else 0)
  { score := lengthScore + contentScore,
    errors := lengthErrors,
    warnings := lengthWarnings }

/-- `DataQualityValidator._validate_severity` (the severity is already a
number in this model, so the `float()` conversion cannot fail). -/
def validate_severity (severity : ℚ) (content : String) : FieldQuality :=
  if ¬ (0 ≤ severity ∧ severity ≤ 1) then
    { score := 0, errors := ["Severity out of range"], warnings := [] }
  else
    let content_lower := lcStr content
    let highFound := severity_keywords_high.any (fun k => strContains content_lower k)
    let mediumFound := severity_keywords_medium.any (fun k => strContains content_lower k)
    let lowFound := severity_keywords_low.any (fun k => strContains content_lower k)
    let consistencyScore : ℚ :=
      if severity ≥ 7/10 ∧ highFound then 1/10
      else if severity ≥ 4/10 ∧ mediumFound then 1/10
      else if severity < 4/10 ∧ lowFound then 1/10
      else 0
    let consistencyWarnings : List String :=
      if severity ≥ 7/10 ∧ highFound then []
      else if severity ≥ 4/10 ∧ mediumFound then []
      else if severity < 4/10 ∧ lowFound then []
      else if severity ≥ 7/10 ∧ ¬ highFound then
        ["High severity score but no high-severity keywords found in content"]
      else if severity < 4/10 ∧ highFound then
        ["Low severity score but high-severity keywords found in content"]
      else []
    { score := 2/10 + consistencyScore, errors := [], warnings := consistencyWarnings }

/-- `DataQualityValidator._validate_location` (warnings only, small score). -/
def validate_location (location : String) : FieldQuality :=
  let location_clean := stripStr location
  if location_clean = "" then { score := 0, errors := [], warnings := [] }
  else
    let patternScore : ℚ := if matchesLocationPattern location_clean.data then 1/10
                            else 0
    let known := known_locations.any (fun k => strContains (lcStr location_clean) k)
    let knownScore : ℚ := if known then 5/100 else 0
    let warnings := if known then [] else ["Unknown location"]
    { score := 1/10 + patternScore + knownScore, errors := [], warnings := warnings }

/-- The impact sectors whose keyword lexicon hits the event content
(`_validate_sectors`'s `consistent_sectors`). -/
def consistent_sectors (sectors : List String) (content_lower : String) : List String :=
  sectors.filter fun sector =>
    let kws := (dv_sector_keywords.lookup (lcStripStr sector)).getD []
    ¬ kws.isEmpty ∧ kws.any (fun k => strContains content_lower k)

/-- `DataQualityValidator._validate_sectors` (the sectors argument is a typed
list in this model, so the isinstance guard always passes). -/
def validate_sectors (sectors : List String) (content : String) : FieldQuality :=
  if sectors.isEmpty then { score := 0, errors := [], warnings := [] }
  else
    let content_lower := lcStr content
    let consistent := consistent_sectors sectors content_lower
    let warnings :=
      if (consistent.length : ℚ) < (sectors.length : ℚ) / 2 then
        ["Many sectors not supported by content keywords"]
      else []
    { score := 1/10 + (consistent.length : ℚ) * (5/100), errors := [],
      warnings := warnings }

/-- Simplified well-formedness check standing in for `_validate_url`'s URL
regex: scheme, non-empty host.  The URL contributes no score and no errors in
the source; only warning texts depend on this check, and no claim does. -/
def urlFormatOk (url : String) : Bool :=
  (startsWithCl "http://".data url.data || startsWithCl "https://".data url.data)
  && url.length > 8

/-- `DataQualityValidator._validate_url` (score 0, warnings only). -/
def validate_url (url : String) : FieldQuality :=
  if ¬ urlFormatOk url then
    { score := 0, errors := [], warnings := ["Invalid URL format"] }
  else if startsWithCl "https://".data url.data then
    { score := 0, errors := [], warnings := [] }
  else
    { score := 0, errors := [], warnings := ["URL uses HTTP instead of HTTPS"] }

/-- The required-field errors of `validate_event`: a falsy field is missing,
a blank one is empty.  Python's falsy test makes `severity == 0.0` count as
missing. -/
def required_field_errors (e : Event) : List String :=
  (if e.title = "" then ["Missing required field: title"]
   else if stripStr e.title = "" then ["Empty required field: title"] else []) ++
  (if e.description = "" then ["Missing required field: description"]
   else if stripStr e.description = "" then ["Empty required field: description"]
   else []) ++
  (match e.severity with
   | none => ["Missing required field: severity"]
   | some s => if s = 0 then ["Missing required field: severity"] else [])

/-- The event content the cross-field consistency checks read:
`title + " " + description`. -/
def event_content (e : Event) : String :=
  e.title ++ " " ++ e.description

/-- An absent or falsy field contributes nothing: the neutral field result. -/
def noField : FieldQuality :=
  { score := 0, errors := [], warnings := [] }

/-- The title contribution of `validate_event` (run only on a truthy title). -/
def title_quality (e : Event) : FieldQuality :=
  if e.title ≠ "" then validate_title e.title else noField

/-- The description contribution of `validate_event`. -/
def description_quality (e : Event) : FieldQuality :=
  if e.description ≠ "" then validate_description e.description else noField

/-- The severity contribution of `validate_event` (run whenever the severity
is not `None`, including `0.0`). -/
def severity_quality (e : Event) : FieldQuality :=
  match e.severity with
  | some s => validate_severity s (event_content e)
  | none => noField

/-- The location contribution of `validate_event`. -/
def location_quality (e : Event) : FieldQuality :=
  if e.location ≠ "" then validate_location e.location else noField

/-- The sectors contribution of `validate_event`. -/
def sectors_quality (e : Event) : FieldQuality :=
  if ¬ e.impact_sectors.isEmpty then validate_sectors e.impact_sectors (event_content e)
  else noField

/-- The URL contribution of `validate_event`. -/
def url_quality (e : Event) : FieldQuality :=
  if e.url ≠ "" then validate_url e.url else noField

/-- The accumulated (unclamped) quality score of `validate_event`: the sum of
the per-field sub-scores. -/
def raw_quality_score (e : Event) : ℚ :=
  (title_quality e).score + (description_quality e).score + (severity_quality e).score
    + (location_quality e).score + (sectors_quality e).score + (url_quality e).score

/-- The accumulated error list of `validate_event` (the location, sectors and
URL checks produce warnings only). -/
def event_errors (e : Event) : List String :=
  required_field_errors e ++ (title_quality e).errors ++ (description_quality e).errors
    ++ (severity_quality e).errors

/-- The accumulated warning list of `validate_event`. -/
def event_warnings (e : Event) : List String :=
  (title_quality e).warnings ++ (description_quality e).warnings
    ++ (severity_quality e).warnings ++ (location_quality e).warnings
    ++ (sectors_quality e).warnings ++ (url_quality e).warnings

/-- `DataQualityValidator.validate_event`: required-field checks, per-field
quality scoring, overall validity `errors empty ∧ raw score ≥ 0.3`, and the
returned quality score clamped above at 1. -/
def validate_event (e : Event) : ValidationResult :=
  { is_valid := (event_errors e).isEmpty && decide ((3:ℚ)/10 ≤ raw_quality_score e),
    quality_score := min 1 (raw_quality_score e),
    errors := event_errors e,
    warnings := event_warnings e }

end DV

namespace DD

/-!
Embedding of `data_validation.py`, class `DuplicateDetector`: the three
signature generators and `is_duplicate` acting on the `processed_events`
dict.  Signatures stand in for their MD5 digests (see the header note).
-/

structure Event where
  title : String
  description : String
  location : String
  source : Option String
deriving DecidableEq

def stop_words : List String :=
  ["the", "a", "an", "and", "or", "but", "in", "on", "at", "to", "for", "of",
   "with", "by", "is", "are", "was", "were"]

/-- `DuplicateDetector._generate_exact_hash`: raw concatenation of title,
description and location. -/
def exact_signature (e : Event) : String :=
  e.title ++ e.description ++ e.location

/-- `DuplicateDetector._generate_content_hash`: each of title and description
lowercased, stripped, whitespace-collapsed, then concatenated. -/
def content_signature (e : Event) : String :=
  (⟨collapseWs (stripChars (lcList e.title.data))⟩ : String)
  ++ (⟨collapseWs (stripChars (lcList e.description.data))⟩ : String)

/-- The meaningful words of `_generate_fuzzy_hash`: word-character runs of the
lowercased `title + ' ' + description`, keeping those longer than 3 characters
that are not stop words. -/
def meaningful_words (e : Event) : List String :=
  let all_words := findWords (lcList e.title.data ++ [' '] ++ lcList e.description.data)
  (all_words.filter fun w =>
    w.length > 3 && ¬ stop_words.contains (⟨w⟩ : String)).map
    fun w => (⟨w⟩ : String)

/-- `DuplicateDetector._generate_fuzzy_hash`: the first ten meaningful words,
sorted, joined by single spaces. -/
def fuzzy_signature (e : Event) : String :=
  String.intercalate " " (List.insertionSort strLe ((meaningful_words e).take 10))

structure Meta where
  timestamp : String
  title_prefix : String
  source : String
deriving DecidableEq

/-- The `processed_events` dict: signature to metadata, in insertion order. -/
abbrev Store := List (String × Meta)

/-- Python dict assignment: overwrite the entry of an existing key in place,
else append the new entry. -/
def store_insert (k : String) (v : Meta) : Store → Store
  | [] => [(k, v)]
  | (a, b) :: tl => if a = k then (k, v) :: tl else (a, b) :: store_insert k v tl

/-- The metadata recorded with a newly seen signature: the current instant,
the first 50 characters of the title, and the source defaulted to unknown. -/
def mk_meta (now : String) (e : Event) : Meta :=
  ⟨now, (⟨e.title.data.take 50⟩ : String), e.source.getD "unknown"⟩

/-- The store after recording an unseen event: all three signatures map to
the fresh metadata. -/
def record_event (now : String) (e : Event) (st : Store) : Store :=
  store_insert (fuzzy_signature e) (mk_meta now e)
    (store_insert (content_signature e) (mk_meta now e)
      (store_insert (exact_signature e) (mk_meta now e) st))

/-- `DuplicateDetector.is_duplicate`: check the exact, content and fuzzy
signatures against the store in that order; on a miss record all three with
fresh metadata.  Returns the (flag, reason) pair and the resulting store. -/
def is_duplicate (now : String) (e : Event) (st : Store) :
    (Bool × Option String) × Store :=
  if (st.lookup (exact_signature e)).isSome then ((true, some "exact_duplicate"), st)
  else if (st.lookup (content_signature e)).isSome then
    ((true, some "content_duplicate"), st)
  else if (st.lookup (fuzzy_signature e)).isSome then
    ((true, some "fuzzy_duplicate"), st)
  else ((false, none), record_event now e st)

end DD

/-- Recursion core of `replaceAll`, scanning left to right over
non-overlapping occurrences of the nonempty target `t0 :: trest`; the fuel
dominates the input length and every step consumes at least one character. -/
def replaceAllF (t0 : Char) (trest rep : List Char) : Nat → List Char → List Char
  | 0, l => l
  | _ + 1, [] => []
  | fuel + 1, c :: rest =>
    if startsWithCl (t0 :: trest) (c :: rest) then
      rep ++ replaceAllF t0 trest rep fuel (rest.drop trest.length)
    else c :: replaceAllF t0 trest rep fuel rest

/-- Python `str.replace(old, new)`; an empty `old` leaves the string unchanged
(the sources only replace nonempty targets). -/
def replaceAll (tgt rep l : List Char) : List Char :=
  match tgt with
  | [] => l
  | t0 :: trest => replaceAllF t0 trest rep l.length l

namespace DN

/-!
Embedding of `data_validation.py`, class `DataNormalizer`.  The event dicts
it consumes are the validator's, so the input type is `DV.Event`; the two
metadata keys the source adds (`normalization_applied`, `normalized_at`) are
carried next to the updated fields.

A note on `_normalize_text`'s encoding-fix lines, taken from the bytes of the
file: the first line replaces the ASCII double quote by itself twice, which is
the identity and is elided here; the second line, parsed as Python, is one
single call replacing the fifteen-character literal between its two
triple-quote delimiters by an apostrophe, and is modelled exactly as such by
`encoding_fix_target`.
-/

def location_aliases : List (String × String) :=
  [("la", "Los Angeles"), ("nyc", "New York City"), ("sf", "San Francisco"),
   ("uk", "United Kingdom"), ("usa", "United States"), ("us", "United States"),
   ("prc", "China"), ("hk", "Hong Kong"), ("sg", "Singapore")]

def sector_mappings : List (String × String) :=
  [("auto", "automotive"), ("cars", "automotive"), ("vehicles", "automotive"),
   ("chips", "electronics"), ("semiconductors", "electronics"),
   ("tech", "electronics"), ("it", "electronics"),
   ("oil", "energy"), ("gas", "energy"), ("petroleum", "energy"),
   ("power", "energy"), ("electricity", "energy"),
   ("food", "agriculture"), ("farming", "agriculture"), ("crops", "agriculture"),
   ("livestock", "agriculture"),
   ("shipping", "transportation"), ("logistics", "transportation"),
   ("freight", "transportation"), ("cargo", "transportation"),
   ("ports", "transportation"),
   ("factories", "manufacturing"), ("production", "manufacturing"),
   ("plants", "manufacturing"), ("industrial", "manufacturing")]

/-- `DataNormalizer._normalize_location`: alias lookup on the lowercased,
stripped string, else capitalize each whitespace-separated word. -/
def normalize_location (location : String) : String :=
  match location_aliases.lookup (lcStripStr location) with
  | some v => v
  | none =>
    let location_clean := stripStr location
    ⟨joinSpace ((splitWs location_clean.data).map capWord)⟩

/-- The loop body accumulator of `_normalize_sectors`: mapped sectors are
appended by canonical name, unmapped ones lowercased, skipping entries already
present. -/
def normalize_sectors_aux (acc : List String) : List String → List String
  | [] => acc
  | sector :: rest =>
    match sector_mappings.lookup (lcStripStr sector) with
    | some v =>
      normalize_sectors_aux (if v ∈ acc then acc else acc ++ [v]) rest
    | none =>
      let low := lcStr sector
      normalize_sectors_aux (if low ∈ acc then acc else acc ++ [low]) rest

/-- `DataNormalizer._normalize_sectors`. -/
def normalize_sectors (sectors : List String) : List String :=
  normalize_sectors_aux [] sectors

/-- The literal target of the encoding-fix `replace` (see the module note). -/
def encoding_fix_target : List Char :=
  (", \"\x27\").replace(" : String).data

/-- `DataNormalizer._normalize_text`: strip and collapse whitespace, apply the
encoding fix, drop control characters. -/
def normalize_text (text : String) : String :=
  if text = "" then ""
  else
    let t := collapseWs (stripChars text.data)
    let t := replaceAll encoding_fix_target ['\x27'] t
    ⟨t.filter fun c => ¬ isCtrlChar c⟩

structure NormEvent where
  event : DV.Event
  normalization_applied : Bool
  normalized_at : String
deriving DecidableEq

/-- `DataNormalizer.normalize_event`: normalize a truthy location, truthy
sector list, and the two text fields; record the normalization metadata. -/
def normalize_event (now : String) (e : DV.Event) : NormEvent :=
  let location := if e.location ≠ "" then normalize_location e.location else e.location
  let sectors := if ¬ e.impact_sectors.isEmpty then normalize_sectors e.impact_sectors
                 else e.impact_sectors
  { event := { e with
      location := location
      impact_sectors := sectors
      title := normalize_text e.title
      description := normalize_text e.description }
    normalization_applied := true
    normalized_at := now }

end DN

/-- Case-insensitive prefix test (ASCII folding), for `re.IGNORECASE`. -/
def startsWithCI : List Char → List Char → Bool
  | [], _ => true
  | _ :: _, [] => false
  | a :: as, b :: bs => (a.toLower == b.toLower) && startsWithCI as bs

/-- Word-boundary check at the current position: end of string or a non-word
character next. -/
def atBoundary (l : List Char) : Bool :=
  match l with
  | [] => true
  | c :: _ => ¬ isWordChar c

/-- Scanner for `re.sub(r'\bT\b', rep, s, flags=re.IGNORECASE)` with a literal
word `T = t0 :: trest`: replace each non-overlapping, case-insensitive,
word-bounded occurrence.  The flag records whether the previous character of
the original text was a word character. -/
def replaceWordCIAux (t0 : Char) (trest rep : List Char) : Bool → List Char → List Char
  | _, [] => []
  | prevWord, c :: rest =>
    if !prevWord && startsWithCI (t0 :: trest) (c :: rest)
        && atBoundary ((c :: rest).drop (trest.length + 1)) then
      rep ++ replaceWordCIAux t0 trest rep (isWordChar (trest.getLastD t0))
        (rest.drop trest.length)
    else c :: replaceWordCIAux t0 trest rep (isWordChar c) rest
termination_by _ l => l.length
decreasing_by
  · simp [List.length_drop]
    omega
  · simp

/-- Word-bounded case-insensitive replacement of a literal word; an empty
target leaves the string unchanged (the sources only replace nonempty ones). -/
def replaceWordCI (tgt rep : List Char) (l : List Char) : List Char :=
  match tgt with
  | [] => l
  | t0 :: trest => replaceWordCIAux t0 trest rep false l

namespace DC

/-!
Embedding of `src/services/data-collector/main.py`, class `DataProcessor`:
the validation, duplicate-detection and transformation pipeline of
`process_event`, threading the `processed_hashes` set explicitly.  The set of
seen hashes is a list of the hashed contents (MD5 modelled as in the header
note); `datetime.utcnow()` is a `now : String` parameter.

`align_timestamp` is abstracted: the source tries several datetime formats on
the first present timestamp field and falls back to the current instant; the
model keeps a present `published_at` string unchanged (a successful parse and
its re-serialisation are abstracted to the identity) and falls back to `now`.
No claim depends on the timestamp value.
-/

structure RawEvent where
  title : String
  description : String
  severity : Option ℚ
  location : String
  impact_sectors : List String
  published_at : Option String
deriving DecidableEq

structure LocInfo where
  standard_name : String
  country : String
  region : String
  coordinates : List ℚ
deriving DecidableEq

/-- `DataProcessor._load_location_mappings`. -/
def location_mappings : List (String × LocInfo) :=
  [("los angeles", ⟨"Los Angeles", "US", "North America", [340522/10000, -1182437/10000]⟩),
   ("shanghai", ⟨"Shanghai", "CN", "Asia", [312304/10000, 1214737/10000]⟩),
   ("singapore", ⟨"Singapore", "SG", "Asia", [13521/10000, 1038198/10000]⟩),
   ("rotterdam", ⟨"Rotterdam", "NL", "Europe", [519244/10000, 44777/10000]⟩),
   ("hamburg", ⟨"Hamburg", "DE", "Europe", [535511/10000, 99937/10000]⟩),
   ("suez canal", ⟨"Suez Canal", "EG", "Middle East", [300444/10000, 323499/10000]⟩),
   ("panama canal", ⟨"Panama Canal", "PA", "Central America", [90820/10000, -797737/10000]⟩),
   ("china", ⟨"China", "CN", "Asia", [358617/10000, 1041954/10000]⟩),
   ("usa", ⟨"United States", "US", "North America", [370902/10000, -957129/10000]⟩),
   ("germany", ⟨"Germany", "DE", "Europe", [511657/10000, 104515/10000]⟩)]

/-- `DataProcessor._load_sector_mappings`. -/
def dc_sector_mappings : List (String × String) :=
  [("auto", "automotive"), ("car", "automotive"), ("vehicle", "automotive"),
   ("chip", "electronics"), ("semiconductor", "electronics"), ("tech", "electronics"),
   ("oil", "energy"), ("gas", "energy"), ("power", "energy"),
   ("food", "agriculture"), ("farming", "agriculture"), ("crop", "agriculture"),
   ("ship", "transportation"), ("port", "transportation"),
   ("logistics", "transportation"), ("freight", "transportation"),
   ("factory", "manufacturing"), ("production", "manufacturing"),
   ("plant", "manufacturing")]

/-- `DataProcessor.validate_event_data`: required fields truthy, severity a
number in `[0, 1]`, title at least 10 and description at least 20 characters.
Python's falsy test makes `severity == 0.0` fail the required-field check. -/
def validate_event_data (e : RawEvent) : Bool :=
  match e.severity with
  | none => false
  | some s =>
    if e.title = "" ∨ e.description = "" ∨ s = 0 then false
    else if ¬ (0 ≤ s ∧ s ≤ 1) then false
    else if e.title.length < 10 ∨ e.description.length < 20 then false
    else true

/-- The content hashed by `DataProcessor.detect_duplicate`: raw concatenation
of title, description and location. -/
def exact_signature (e : RawEvent) : String :=
  e.title ++ e.description ++ e.location

/-- `DataProcessor.detect_duplicate`: membership in the `processed_hashes`
set; a new hash is recorded. -/
def detect_duplicate (e : RawEvent) (st : List String) : Bool × List String :=
  let h := exact_signature e
  if h ∈ st then (true, st) else (false, h :: st)

/-- The abbreviation expansions of `DataProcessor.preprocess_text`, in
dict order. -/
def abbreviations : List (String × String) :=
  [("US", "United States"), ("UK", "United Kingdom"), ("EU", "European Union"),
   ("CEO", "Chief Executive Officer"), ("GDP", "Gross Domestic Product"),
   ("CPI", "Consumer Price Index")]

/-- Characters kept by `re.sub(r'[^\w\s.,!?;:-]', '', text)`. -/
def keepChar (c : Char) : Bool :=
  isWordChar c || isPyWs c ||
  c == '.' || c == ',' || c == '!' || c == '?' || c == ';' || c == ':' || c == '-'

/-- `DataProcessor.preprocess_text`: collapse whitespace on the stripped text,
drop disallowed characters, expand the abbreviations word-bounded and
case-insensitively. -/
def preprocess_text (text : String) : String :=
  if text = "" then ""
  else
    let t := collapseWs (stripChars text.data)
    let t := t.filter keepChar
    let t := abbreviations.foldl (fun acc p => replaceWordCI p.1.data p.2.data acc) t
    ⟨t⟩

/-- Python `str.title()`: uppercase each letter that follows a non-letter,
lowercase the rest (ASCII). -/
def pyTitleAux : Bool → List Char → List Char
  | _, [] => []
  | prevAlpha, c :: rest =>
    (if c.isAlpha then (if prevAlpha then c.toLower else c.toUpper) else c)
      :: pyTitleAux c.isAlpha rest

def pyTitle (s : String) : String :=
  ⟨pyTitleAux false s.data⟩

/-- `DataProcessor.standardize_location`: exact lookup on the lowercased,
stripped location, then the first mapping whose key and the location contain
one another, then title-cased fallback with empty geo data. -/
def standardize_location (location : String) : LocInfo :=
  if location = "" then ⟨"", "", "", [0, 0]⟩
  else
    let location_lower := lcStripStr location
    match location_mappings.lookup location_lower with
    | some v => v
    | none =>
      match location_mappings.find?
          (fun p => strContains location_lower p.1 || strContains p.1 location_lower) with
      | some p => p.2
      | none => ⟨pyTitle location, "", "", [0, 0]⟩

/-- Append if absent: the model of adding to the `standardized` set, read off
in insertion order. -/
def addUnique (x : String) (acc : List String) : List String :=
  if x ∈ acc then acc else acc ++ [x]

/-- The loop of `DataProcessor.standardize_sectors`: exact mapping, else first
mapping whose key is a substring of the sector, else the lowercased sector. -/
def standardize_sectors_aux (acc : List String) : List String → List String
  | [] => acc
  | sector :: rest =>
    let sector_lower := lcStripStr sector
    match dc_sector_mappings.lookup sector_lower with
    | some v => standardize_sectors_aux (addUnique v acc) rest
    | none =>
      match dc_sector_mappings.find? (fun p => strContains sector_lower p.1) with
      | some p => standardize_sectors_aux (addUnique p.2 acc) rest
      | none => standardize_sectors_aux (addUnique sector_lower acc) rest

/-- `DataProcessor.standardize_sectors` (the Python `set` is modelled as an
insertion-ordered deduplicated list; no claim depends on the order). -/
def standardize_sectors (sectors : List String) : List String :=
  standardize_sectors_aux [] sectors

/-- `DataProcessor.align_timestamp`, abstracted as described in the module
note. -/
def align_timestamp (now : String) (e : RawEvent) : String :=
  e.published_at.getD now

/-- `DataProcessor._calculate_quality_score`, evaluated on the transformed
field values exactly as the source reads them back from the mutated dict. -/
def calculate_quality_score (title description : String) (loc : LocInfo)
    (sectors : List String) (timestamp : String) : ℚ :=
  let score : ℚ := min (2/10) ((title.length : ℚ) / 100)
  let score := score + min (3/10) ((description.length : ℚ) / 200)
  let score := score + (if loc.country ≠ "" then 2/10 else 0)
  let score := score + (if ¬ sectors.isEmpty then min (2/10) ((sectors.length : ℚ) * (5/100))
                        else 0)
  let score := score + (if timestamp ≠ "" then 1/10 else 0)
  min 1 score

structure Processed where
  title : String
  description : String
  severity : Option ℚ
  location : String
  location_standardized : LocInfo
  impact_sectors : List String
  timestamp : String
  source : String
  processed_at : String
  data_quality_score : ℚ
deriving DecidableEq

/-- Steps 3 to 7 of `DataProcessor.process_event`: the transformation applied
once validation and duplicate detection have passed. -/
def transform_event (now source : String) (e : RawEvent) : Processed :=
  let title := preprocess_text e.title
  let description := preprocess_text e.description
  let location_info := standardize_location e.location
  let sectors := standardize_sectors e.impact_sectors
  let timestamp := align_timestamp now e
  { title := title
    description := description
    severity := e.severity
    location := e.location
    location_standardized := location_info
    impact_sectors := sectors
    timestamp := timestamp
    source := source
    processed_at := now
    data_quality_score := calculate_quality_score title description location_info
      sectors timestamp }

/-- `DataProcessor.process_event`: reject on failed validation (before the
duplicate detector runs), reject a detected duplicate, otherwise transform.
Returns the produced event, if any, and the resulting hash store. -/
def process_event (now source : String) (e : RawEvent) (st : List String) :
    Option Processed × List String :=
  if validate_event_data e = false then (none, st)
  else
    match detect_duplicate e st with
    | (true, st1) => (none, st1)
    | (false, st1) => (some (transform_event now source e), st1)

end DC

/-!
Proof-support predicates and the concrete sample inputs used by witnesses and
counterexamples.
-/

/-- The head, if any, is not whitespace. -/
def noLeadWs (l : List Char) : Prop :=
  ∀ c, l.head? = some c → isPyWs c = false

/-- The last character, if any, is not whitespace. -/
def noTrailWs (l : List Char) : Prop :=
  ∀ c, l.getLast? = some c → isPyWs c = false

/-- Every whitespace character is a single space not followed by whitespace:
the shape of `collapseWs` output. -/
def spacedOk : List Char → Prop
  | [] => True
  | c :: rest => (isPyWs c = true → c = ' ' ∧ noLeadWs rest) ∧ spacedOk rest

/-- A sector string that `DataNormalizer._normalize_sectors` passes through
unchanged: no mapping key matches and it is already lowercase. -/
def sectorSelfNormal (x : String) : Prop :=
  DN.sector_mappings.lookup (lcStripStr x) = none ∧ lcStr x = x

/-- Character lists free of control characters and double quotes, the
precondition of text-normalization idempotence. -/
def ctrlQuoteFree (l : List Char) : Prop :=
  ∀ c ∈ l, isCtrlChar c = false ∧ c ≠ '"'

/-- Sample event for the risk engine: a keyworded electronics event located in
a connected region. -/
def sampleRiskEvent : RC.Event :=
  { title := "Chip shortage hits factories"
    description := "Factories report chip supply problems"
    severity := some (9/10)
    location := "Germany"
    event_type := "geopolitical" }

/-- The top assessment the engine produces for `sampleRiskEvent`. -/
def sampleAssessment : RC.Assessment :=
  ((RC.calculate_risks sampleRiskEvent).head?).getD ⟨"", "", 0, [], ""⟩

/-- A raw event with an empty title, failing collector validation. -/
def dcBadEvent : DC.RawEvent :=
  { title := ""
    description := "A lengthy description of some disruption event."
    severity := some (1/2)
    location := ""
    impact_sectors := []
    published_at := none }

/-- A raw event passing collector validation. -/
def dcGoodEvent : DC.RawEvent :=
  { title := "Port strike in the US disrupts cargo"
    description := "Major US port strike delays shipments across the EU."
    severity := some (7/10)
    location := "los angeles"
    impact_sectors := ["ship", "Chips"]
    published_at := none }

/-- An event the quality validator accepts. -/
def dvGoodEvent : DV.Event :=
  { title := "Port strike disrupts shipping"
    description := "A major strike has closed the port for several days."
    severity := some (8/10)
    location := "Shanghai"
    impact_sectors := ["shipping"]
    url := "" }

/-- Sample event for the duplicate detector. -/
def ddSampleEvent : DD.Event :=
  { title := "Cargo ships delayed near port"
    description := "Dozens of cargo ships report delays."
    location := "Rotterdam"
    source := some "news_api" }

/-- The store after the detector has seen `ddSampleEvent` once. -/
def ddSampleStore : DD.Store :=
  (DD.is_duplicate "2024-01-01T00:00:00" ddSampleEvent []).2

/-- First fuzzy-pair event: five meaningful tokens. -/
def fuzzyPairA : DD.Event :=
  { title := "Cargo ships delayed near port"
    description := ""
    location := "x"
    source := none }

/-- Second fuzzy-pair event: the same meaningful tokens, reordered, with
different punctuation. -/
def fuzzyPairB : DD.Event :=
  { title := "port: ships near cargo -- delayed!"
    description := ""
    location := "y"
    source := none }

/-- First of the eleven-token pair refuting the unrestricted fuzzy claim. -/
def fuzzyElevenA : DD.Event :=
  { title := "amber bronze copper dental eagles falcon garnet hazel indigo jasper kitten"
    description := ""
    location := "x"
    source := none }

/-- The eleven tokens of `fuzzyElevenA` in reverse order. -/
def fuzzyElevenB : DD.Event :=
  { title := "kitten jasper indigo hazel garnet falcon eagles dental copper bronze amber"
    description := ""
    location := "y"
    source := none }

/-- An event whose title holds a control character between two spaces. -/
def ctrlTextEvent : DV.Event :=
  { title := "a \x7f b"
    description := "d"
    severity := none
    location := ""
    impact_sectors := []
    url := "" }

/-- An event whose title completes the encoding-fix target around a nested
copy of it, so that the fix produces a fresh occurrence of its own target. -/
def quoteTextEvent : DV.Event :=
  { title := ", \", \"\x27\").replace(\").replace("
    description := "d"
    severity := none
    location := ""
    impact_sectors := []
    url := "" }

/-- An event with clean text fields for the normalization witness. -/
def cleanTextEvent : DV.Event :=
  { title := "Chip plant fire"
    description := "Production halted at the plant."
    severity := some (6/10)
    location := "usa"
    impact_sectors := ["chips"]
    url := "" }

/-!
Theorems.  Claim theorems are named `claim_Cn`; their witnesses and
counterexamples `claim_Cn_witness` / `claim_Cn_counterexample`.
-/

/-- Claim C2: a RawEvent that fails validation produces no ProcessedEvent,
and the pipeline halts before the duplicate detector, leaving the
duplicate-signature store unchanged. -/
theorem claim_C2 : ∀ (now source : String) (e : DC.RawEvent) (st : List String),
    DC.validate_event_data e = false →
    DC.process_event now source e st = (none, st) := by
  intro now source e st h
  simp [DC.process_event, h]

/-- Witness for claim C2 at an event with an empty title. -/
theorem claim_C2_witness :
    DC.process_event "t" "src" dcBadEvent [] = (none, []) :=
  claim_C2 "t" "src" dcBadEvent [] (by decide)

/-- Claim C3: a RawEvent that passes validation and is new to the signature
store is processed exactly once; resubmitting it finds its signature stored,
the detector flags it, and no second ProcessedEvent is produced. -/
theorem claim_C3 :
    ∀ (now1 src1 now2 src2 : String) (e : DC.RawEvent) (st : List String),
    DC.validate_event_data e = true →
    DC.exact_signature e ∉ st →
    DC.process_event now1 src1 e st
        = (some (DC.transform_event now1 src1 e), DC.exact_signature e :: st)
    ∧ DC.detect_duplicate e (DC.exact_signature e :: st)
        = (true, DC.exact_signature e :: st)
    ∧ DC.process_event now2 src2 e (DC.exact_signature e :: st)
        = (none, DC.exact_signature e :: st) := by
  intro now1 src1 now2 src2 e st hv hmem
  have hd1 : DC.detect_duplicate e st = (false, DC.exact_signature e :: st) := by
    simp [DC.detect_duplicate, hmem]
  have hd2 : DC.detect_duplicate e (DC.exact_signature e :: st)
      = (true, DC.exact_signature e :: st) := by
    simp [DC.detect_duplicate]
  refine ⟨?_, hd2, ?_⟩
  · simp [DC.process_event, hv, hd1]
  · simp [DC.process_event, hv, hd2]

/-- Witness for claim C3: a concrete valid event submitted twice from the
empty store yields one processed event, then a duplicate rejection. -/
theorem claim_C3_witness :
    DC.process_event "t1" "news_api" dcGoodEvent []
        = (some (DC.transform_event "t1" "news_api" dcGoodEvent),
           [DC.exact_signature dcGoodEvent])
    ∧ DC.process_event "t2" "news_api" dcGoodEvent [DC.exact_signature dcGoodEvent]
        = (none, [DC.exact_signature dcGoodEvent]) := by
  have h := claim_C3 "t1" "news_api" "t2" "news_api" dcGoodEvent []
    (by decide) (by decide)
  exact ⟨h.1, h.2.2⟩

/-- Claim C5 (amended): the risk-assessment service blends the base risk
(severity, falsy-defaulted to 0.5, times the event-type multiplier) with a
location risk by `(base + location_risk) / 2` capped above at 1 — but the
location risk is not read from the static region-weight table: it is 0.8 when
the location contains a high-risk keyword and 0.4 otherwise, so an unknown
location defaults to 0.4 and the "Global" location also yields 0.4 rather
than about 0.8. -/
theorem claim_C5 : ∀ e : RA.Event,
    RA.calculate_base_risk e
      = min 1 ((pyFloatOr e.severity (1/2)
          * ((RA.base_type_multipliers.lookup (lcStr e.event_type)).getD (6/10))
          + RA.get_location_risk e.location) / 2)
    ∧ (∀ loc : String,
        RA.get_location_risk loc = 8/10 ∨ RA.get_location_risk loc = 4/10)
    ∧ RA.get_location_risk "Global" = 4/10 := by
  intro e
  refine ⟨rfl, ?_, by decide⟩
  intro loc
  unfold RA.get_location_risk
  split_ifs
  · exact Or.inl rfl
  · exact Or.inr rfl

/-- Counterexample to claim C5 as stated: for a severity-1 geopolitical event
located in "Global", the code blends with location risk 0.4 and returns 0.65,
not the 0.85 that blending with the region table's Global weight 0.8 would
give. -/
theorem claim_C5_counterexample :
    RA.calculate_base_risk
        { severity := some 1, event_type := "geopolitical", location := "Global",
          impact_sectors := [] } = 13/20
    ∧ RA.get_location_risk "Global" = 4/10
    ∧ RC.regional_weights.lookup "Global" = some (8/10)
    ∧ (13/20 : ℚ) ≠ min 1 ((1 * (9/10) + 8/10) / 2) := by
  refine ⟨by decide, by decide, by decide, by decide⟩

/-- Claim C6 (amended): the time-decay utility multiplies the risk by a factor
determined solely by the elapsed time, with buckets at 24 hours, 7 days and
4 weeks giving 1.0, 0.8, 0.6 and 0.4; for every nonnegative base risk the
time-adjusted risk never exceeds the base risk (a negative base risk is
scaled toward zero and so increases). -/
theorem claim_C6 : ∀ base now ts : ℚ,
    RC.calculate_time_adjusted_risk base now ts
      = base * RC.time_decay_factor (now - ts)
    ∧ (now - ts ≤ 86400 → RC.time_decay_factor (now - ts) = 1)
    ∧ (86400 < now - ts → now - ts ≤ 604800 →
        RC.time_decay_factor (now - ts) = 8/10)
    ∧ (604800 < now - ts → now - ts ≤ 2419200 →
        RC.time_decay_factor (now - ts) = 6/10)
    ∧ (2419200 < now - ts → RC.time_decay_factor (now - ts) = 4/10)
    ∧ (0 ≤ base → RC.calculate_time_adjusted_risk base now ts ≤ base) := by
  intro base now ts
  refine ⟨rfl, ?_, ?_, ?_, ?_, ?_⟩
  · intro h
    simp [RC.time_decay_factor, h]
  · intro h1 h2
    rw [RC.time_decay_factor, if_neg (by linarith), if_pos h2]
  · intro h1 h2
    rw [RC.time_decay_factor, if_neg (by linarith), if_neg (by linarith), if_pos h2]
  · intro h
    rw [RC.time_decay_factor, if_neg (by linarith), if_neg (by linarith),
      if_neg (by linarith)]
  · intro hb
    have h1 : RC.time_decay_factor (now - ts) ≤ 1 := by
      unfold RC.time_decay_factor
      split_ifs <;> norm_num
    calc base * RC.time_decay_factor (now - ts) ≤ base * 1 :=
          mul_le_mul_of_nonneg_left h1 hb
      _ = base := mul_one base

/-- Witness for claim C6 at base risk 1 and an elapsed time of 90000 seconds
(in the second bucket). -/
theorem claim_C6_witness :
    (86400 : ℚ) < 90000 - 0 ∧ (0 : ℚ) ≤ 1
    ∧ RC.time_decay_factor ((90000 : ℚ) - 0) = 8/10
    ∧ RC.calculate_time_adjusted_risk 1 90000 0 ≤ 1 :=
  ⟨by norm_num, by norm_num,
   (claim_C6 1 90000 0).2.2.1 (by norm_num) (by norm_num),
   (claim_C6 1 90000 0).2.2.2.2.2 (by norm_num)⟩

/-- Counterexample to claim C6 as stated: at base risk -1 and an elapsed time
of 30 days, the adjusted risk is -0.4, which exceeds the base risk. -/
theorem claim_C6_counterexample :
    RC.calculate_time_adjusted_risk (-1) 2592000 0 = -(4/10)
    ∧ ¬ RC.calculate_time_adjusted_risk (-1) 2592000 0 ≤ -1 := by
  refine ⟨by decide, by decide⟩

/-- Claim C10: whenever the duplicate detector reports a duplicate, the
signature store is returned unchanged: nothing is inserted and no stored
metadata (in particular no recorded timestamp) is refreshed, so retention is
measured from the first sighting of the content. -/
theorem claim_C10 : ∀ (now : String) (e : DD.Event) (st : DD.Store),
    (DD.is_duplicate now e st).1.1 = true →
    (DD.is_duplicate now e st).2 = st := by
  intro now e st h
  unfold DD.is_duplicate at h ⊢
  split_ifs at h ⊢ <;> simp_all

/-- Witness for claim C10: resubmitting the sample event against the store
that already holds its signatures leaves that store untouched. -/
theorem claim_C10_witness :
    (DD.is_duplicate "t2" ddSampleEvent ddSampleStore).2 = ddSampleStore :=
  claim_C10 "t2" ddSampleEvent ddSampleStore (by decide)

/-- An if-then-else of nonnegative rationals is nonnegative. -/
theorem iteNonnegQ {p : Prop} [Decidable p] {x y : ℚ} (hx : 0 ≤ x) (hy : 0 ≤ y) :
    0 ≤ if p then x else y := by
  split_ifs <;> assumption

/-- Every assessment the risk engine outputs passed the strict 0.3 filter and
is a `combine_risks` result. -/
theorem calculate_risks_mem {ev : RC.Event} {a : RC.Assessment}
    (h : a ∈ RC.calculate_risks ev) :
    3/10 < a.risk_level ∧ ∃ r s, a = RC.combine_risks r s := by
  simp only [RC.calculate_risks] at h
  have h1 := List.take_subset _ _ h
  have h2 := (List.perm_insertionSort _ _).subset h1
  rw [List.mem_filter] at h2
  obtain ⟨hmem, hp⟩ := h2
  refine ⟨by exact_mod_cast of_decide_eq_true hp, ?_⟩
  obtain ⟨r, _, hm⟩ := List.mem_flatMap.mp hmem
  obtain ⟨s, _, rfl⟩ := List.mem_map.mp hm
  exact ⟨r, s, rfl⟩

/-- Claim C4: no assessment in the risk engine's output has a risk level below
the significance threshold 0.3; every combined pair scoring below it is
discarded before output. -/
theorem claim_C4 : ∀ (ev : RC.Event) (a : RC.Assessment),
    a ∈ RC.calculate_risks ev → ¬ a.risk_level < 3/10 :=
  fun _ _ h => not_lt.mpr (le_of_lt (calculate_risks_mem h).1)

set_option maxRecDepth 100000 in
/-- Witness for claim C4 at a concrete high-severity event. -/
theorem claim_C4_witness : ¬ sampleAssessment.risk_level < 3/10 :=
  claim_C4 sampleRiskEvent sampleAssessment (by decide)

theorem validate_title_score_nonneg (t : String) : 0 ≤ (DV.validate_title t).score := by
  unfold DV.validate_title
  dsimp only
  cases ht : t.data with
  | nil => split_ifs <;> norm_num
  | cons c rest =>
    dsimp only
    split_ifs <;> norm_num

theorem validate_description_score_nonneg (d : String) :
    0 ≤ (DV.validate_description d).score := by
  unfold DV.validate_description
  dsimp only
  refine add_nonneg (by split_ifs <;> norm_num) ?_
  split_ifs <;> norm_num

theorem validate_severity_score_nonneg (s : ℚ) (c : String) :
    0 ≤ (DV.validate_severity s c).score := by
  unfold DV.validate_severity
  dsimp only
  split_ifs <;> norm_num

theorem validate_location_score_nonneg (l : String) :
    0 ≤ (DV.validate_location l).score := by
  unfold DV.validate_location
  dsimp only
  split_ifs <;> norm_num

theorem validate_sectors_score_nonneg (ss : List String) (c : String) :
    0 ≤ (DV.validate_sectors ss c).score := by
  have h5 : (0 : ℚ) ≤ ((DV.consistent_sectors ss (lcStr c)).length : ℚ) :=
    Nat.cast_nonneg _
  have h6 := mul_nonneg h5 (by norm_num : (0:ℚ) ≤ 5/100)
  unfold DV.validate_sectors
  dsimp only
  split_ifs <;> dsimp only <;> linarith

theorem validate_url_score_nonneg (u : String) : 0 ≤ (DV.validate_url u).score := by
  unfold DV.validate_url
  dsimp only
  split_ifs <;> norm_num

/-- The validator's accumulated raw quality score is a sum of nonnegative
sub-scores. -/
theorem raw_quality_score_nonneg (e : DV.Event) : 0 ≤ DV.raw_quality_score e := by
  unfold DV.raw_quality_score
  have h1 : 0 ≤ (DV.title_quality e).score := by
    unfold DV.title_quality
    rw [apply_ite DV.FieldQuality.score]
    exact iteNonnegQ (validate_title_score_nonneg _) le_rfl
  have h2 : 0 ≤ (DV.description_quality e).score := by
    unfold DV.description_quality
    rw [apply_ite DV.FieldQuality.score]
    exact iteNonnegQ (validate_description_score_nonneg _) le_rfl
  have h3 : 0 ≤ (DV.severity_quality e).score := by
    unfold DV.severity_quality
    cases e.severity with
    | none => exact le_rfl
    | some s => exact validate_severity_score_nonneg _ _
  have h4 : 0 ≤ (DV.location_quality e).score := by
    unfold DV.location_quality
    rw [apply_ite DV.FieldQuality.score]
    exact iteNonnegQ (validate_location_score_nonneg _) le_rfl
  have h5 : 0 ≤ (DV.sectors_quality e).score := by
    unfold DV.sectors_quality
    rw [apply_ite DV.FieldQuality.score]
    exact iteNonnegQ (validate_sectors_score_nonneg _ _) le_rfl
  have h6 : 0 ≤ (DV.url_quality e).score := by
    unfold DV.url_quality
    rw [apply_ite DV.FieldQuality.score]
    exact iteNonnegQ (validate_url_score_nonneg _) le_rfl
  linarith

/-- Claim C1: every risk level in the risk engine's output, every quality
score the validator returns, and every confidence score of an assessment lies
in the closed interval from 0 to 1, for arbitrary inputs including extreme,
negative or huge severities; the functions clamp without assuming caller
discipline. -/
theorem claim_C1 :
    (∀ (ev : RC.Event) (a : RC.Assessment), a ∈ RC.calculate_risks ev →
      0 ≤ a.risk_level ∧ a.risk_level ≤ 1)
    ∧ (∀ e : DV.Event, 0 ≤ (DV.validate_event e).quality_score
        ∧ (DV.validate_event e).quality_score ≤ 1)
    ∧ (∀ e : RA.Event, 0 ≤ RA.calculate_confidence e
        ∧ RA.calculate_confidence e ≤ 1) := by
  refine ⟨?_, ?_, ?_⟩
  · intro ev a h
    obtain ⟨hgt, r, s, rfl⟩ := calculate_risks_mem h
    constructor
    · linarith
    · simp only [RC.combine_risks]
      exact min_le_right _ _
  · intro e
    constructor
    · exact le_min (by norm_num) (raw_quality_score_nonneg e)
    · exact min_le_left _ _
  · intro e
    unfold RA.calculate_confidence
    constructor
    · refine le_min (by norm_num) ?_
      split_ifs <;> norm_num
    · exact min_le_left _ _

set_option maxRecDepth 100000 in
/-- Witness for claim C1's risk-level bound at a concrete assessment. -/
theorem claim_C1_witness :
    0 ≤ sampleAssessment.risk_level ∧ sampleAssessment.risk_level ≤ 1 :=
  claim_C1.1 sampleRiskEvent sampleAssessment (by decide)

/-- Claim C7: the validator marks an event valid exactly when its error list
is empty and its quality score reaches 0.3, the quality score being the sum of
the per-field sub-scores clamped above at 1 (the threshold is insensitive to
the clamp since 0.3 is below 1). -/
theorem claim_C7 : ∀ e : DV.Event,
    ((DV.validate_event e).is_valid = true
      ↔ ((DV.validate_event e).errors = []
          ∧ 3/10 ≤ (DV.validate_event e).quality_score))
    ∧ (DV.validate_event e).quality_score = min 1 (DV.raw_quality_score e) := by
  intro e
  refine ⟨?_, rfl⟩
  simp only [DV.validate_event, Bool.and_eq_true, List.isEmpty_iff, decide_eq_true_eq]
  constructor
  · rintro ⟨h1, h2⟩
    exact ⟨h1, le_min (by norm_num) h2⟩
  · rintro ⟨h1, h2⟩
    exact ⟨h1, (le_min_iff.mp h2).2⟩

set_option maxRecDepth 100000 in
/-- Witness for claim C7: a concrete well-formed event is marked valid. -/
theorem claim_C7_witness : (DV.validate_event dvGoodEvent).is_valid = true :=
  ((claim_C7 dvGoodEvent).1).mpr ⟨by decide, by decide⟩

theorem lexLe_total : ∀ a b : List Char, lexLe a b = true ∨ lexLe b a = true
  | [], _ => Or.inl rfl
  | _ :: _, [] => Or.inr rfl
  | a :: as, b :: bs => by
    simp only [lexLe]
    rcases Nat.lt_trichotomy a.toNat b.toNat with h | h | h
    · simp [h]
    · simp only [h, lt_irrefl, if_false]
      exact lexLe_total as bs
    · simp [h, Nat.lt_asymm h]

theorem lexLe_trans : ∀ a b c : List Char,
    lexLe a b = true → lexLe b c = true → lexLe a c = true
  | [], _, _ => fun _ _ => rfl
  | _ :: _, [], _ => fun h _ => by simp [lexLe] at h
  | _ :: _, _ :: _, [] => fun _ h => by simp [lexLe] at h
  | a :: as, b :: bs, c :: cs => fun h1 h2 => by
    simp only [lexLe] at h1 h2 ⊢
    rcases Nat.lt_trichotomy a.toNat b.toNat with hab | hab | hab
    · rcases Nat.lt_trichotomy b.toNat c.toNat with hbc | hbc | hbc
      · simp [show a.toNat < c.toNat by omega]
      · simp [show a.toNat < c.toNat by omega]
      · simp [hbc, Nat.lt_asymm hbc] at h2
    · rcases Nat.lt_trichotomy b.toNat c.toNat with hbc | hbc | hbc
      · simp [show a.toNat < c.toNat by omega]
      · simp only [show ¬ a.toNat < c.toNat by omega, if_false,
          show ¬ c.toNat < a.toNat by omega]
        simp only [hab, lt_irrefl, if_false] at h1
        simp only [hbc, lt_irrefl, if_false] at h2
        exact lexLe_trans as bs cs h1 h2
      · simp [hbc, Nat.lt_asymm hbc] at h2
    · simp [hab, Nat.lt_asymm hab] at h1

theorem charEqOfToNat {a b : Char} (h : a.toNat = b.toNat) : a = b := by
  apply Char.eq_of_val_eq
  exact UInt32.ext_iff.mpr h

theorem lexLe_antisymm : ∀ a b : List Char,
    lexLe a b = true → lexLe b a = true → a = b
  | [], [] => fun _ _ => rfl
  | [], _ :: _ => fun _ h => by simp [lexLe] at h
  | _ :: _, [] => fun h _ => by simp [lexLe] at h
  | a :: as, b :: bs => fun h1 h2 => by
    rcases Nat.lt_trichotomy a.toNat b.toNat with h | h | h
    · simp [lexLe, h, Nat.lt_asymm h] at h2
    · simp only [lexLe, h, lt_irrefl, if_false] at h1 h2
      rw [charEqOfToNat h, lexLe_antisymm as bs h1 h2]
    · simp [lexLe, h, Nat.lt_asymm h] at h1

theorem lookup_insert_eq (k : String) (v : DD.Meta) (st : DD.Store) :
    List.lookup k (DD.store_insert k v st) = some v := by
  induction st with
  | nil => simp [DD.store_insert, List.lookup_cons]
  | cons hd tl ih =>
    obtain ⟨a, b⟩ := hd
    by_cases hk : a = k
    · simp [DD.store_insert, hk, List.lookup_cons]
    · simp only [DD.store_insert, hk, if_false, List.lookup_cons,
        beq_false_of_ne (Ne.symm hk)]
      exact ih

theorem lookup_insert_ne {k ko : String} (hne : ko ≠ k) (v : DD.Meta)
    (st : DD.Store) :
    List.lookup ko (DD.store_insert k v st) = List.lookup ko st := by
  induction st with
  | nil => simp [DD.store_insert, List.lookup_cons, beq_false_of_ne hne]
  | cons hd tl ih =>
    obtain ⟨a, b⟩ := hd
    by_cases hk : a = k
    · subst hk
      simp [DD.store_insert, List.lookup_cons, beq_false_of_ne hne]
    · by_cases hko : a = ko
      · subst hko
        simp [DD.store_insert, hk, List.lookup_cons]
      · simp only [DD.store_insert, hk, if_false, List.lookup_cons,
          beq_false_of_ne (Ne.symm hko)]
        exact ih

/-- Two events whose meaningful-word lists are permutations of each other, of
length at most ten, get the same fuzzy signature: the first ten words are all
of them, and sorting cancels the order difference. -/
theorem fuzzy_signature_eq_of_perm {e1 e2 : DD.Event}
    (hp : (DD.meaningful_words e1).Perm (DD.meaningful_words e2))
    (hl : (DD.meaningful_words e1).length ≤ 10) :
    DD.fuzzy_signature e1 = DD.fuzzy_signature e2 := by
  have hl2 : (DD.meaningful_words e2).length ≤ 10 := hp.length_eq ▸ hl
  unfold DD.fuzzy_signature
  rw [List.take_of_length_le hl, List.take_of_length_le hl2]
  congr 1
  haveI : IsTotal String strLe := ⟨fun a b => lexLe_total a.data b.data⟩
  haveI : IsTrans String strLe := ⟨fun a b c => lexLe_trans a.data b.data c.data⟩
  haveI : IsAntisymm String strLe := ⟨fun a b h1 h2 => by
    have h3 := lexLe_antisymm a.data b.data h1 h2
    cases a
    cases b
    exact congrArg String.mk h3⟩
  exact List.eq_of_perm_of_sorted
    (((List.perm_insertionSort strLe _).trans hp).trans
      (List.perm_insertionSort strLe _).symm)
    (List.sorted_insertionSort strLe _) (List.sorted_insertionSort strLe _)

/-- A store holding the fuzzy signature makes the detector report a
duplicate. -/
theorem is_duplicate_true_of_fuzzy {now : String} {e : DD.Event} {st : DD.Store}
    (h : (List.lookup (DD.fuzzy_signature e) st).isSome = true) :
    (DD.is_duplicate now e st).1.1 = true := by
  unfold DD.is_duplicate
  split_ifs with h1 h2 <;> simp_all

/-- With the exact and content signatures unseen and the fuzzy signature
stored, the detector reports a fuzzy duplicate. -/
theorem is_duplicate_fuzzy_reason {now : String} {e : DD.Event} {st : DD.Store}
    (hx : List.lookup (DD.exact_signature e) st = none)
    (hc : List.lookup (DD.content_signature e) st = none)
    (h : (List.lookup (DD.fuzzy_signature e) st).isSome = true) :
    (DD.is_duplicate now e st).1.2 = some "fuzzy_duplicate" := by
  simp [DD.is_duplicate, hx, hc, h]

/-- Claim C8 (amended): two events whose title-and-description texts carry the
same multiset of meaningful tokens, when there are at most ten of them,
produce the same fuzzy signature, so resubmitting the second after the first
was recorded is flagged as a duplicate — with reason fuzzy when its exact and
content signatures are unseen.  With more than ten meaningful tokens the
source hashes the first ten in appearance order, so reordering can change the
signature. -/
theorem claim_C8 : ∀ (now1 now2 : String) (e1 e2 : DD.Event) (st : DD.Store),
    (DD.meaningful_words e1).Perm (DD.meaningful_words e2) →
    (DD.meaningful_words e1).length ≤ 10 →
    DD.fuzzy_signature e1 = DD.fuzzy_signature e2
    ∧ ((DD.is_duplicate now1 e1 st).1.1 = false →
       ((DD.is_duplicate now2 e2 (DD.is_duplicate now1 e1 st).2).1.1 = true
        ∧ (List.lookup (DD.exact_signature e2) (DD.is_duplicate now1 e1 st).2 = none →
           List.lookup (DD.content_signature e2) (DD.is_duplicate now1 e1 st).2 = none →
           (DD.is_duplicate now2 e2 (DD.is_duplicate now1 e1 st).2).1.2
             = some "fuzzy_duplicate"))) := by
  intro now1 now2 e1 e2 st hp hl
  have hf := fuzzy_signature_eq_of_perm hp hl
  refine ⟨hf, ?_⟩
  intro hfalse
  have hst : (DD.is_duplicate now1 e1 st).2 = DD.record_event now1 e1 st := by
    unfold DD.is_duplicate at hfalse ⊢
    split_ifs at hfalse ⊢
    rfl
  have hlook : (List.lookup (DD.fuzzy_signature e2)
      ((DD.is_duplicate now1 e1 st).2)).isSome = true := by
    rw [hst, ← hf]
    unfold DD.record_event
    rw [lookup_insert_eq]
    rfl
  exact ⟨is_duplicate_true_of_fuzzy hlook,
    fun hx hc => is_duplicate_fuzzy_reason hx hc hlook⟩

set_option maxRecDepth 1000000 in
/-- Witness for claim C8: the same five meaningful tokens reordered with
different punctuation are caught as a fuzzy duplicate. -/
theorem claim_C8_witness :
    DD.fuzzy_signature fuzzyPairA = DD.fuzzy_signature fuzzyPairB
    ∧ (DD.is_duplicate "t2" fuzzyPairB (DD.is_duplicate "t1" fuzzyPairA []).2).1.1
        = true
    ∧ (DD.is_duplicate "t2" fuzzyPairB (DD.is_duplicate "t1" fuzzyPairA []).2).1.2
        = some "fuzzy_duplicate" := by
  have h := claim_C8 "t1" "t2" fuzzyPairA fuzzyPairB [] (by decide) (by decide)
  have h2 := h.2 (by decide)
  exact ⟨h.1, h2.1, h2.2 (by decide) (by decide)⟩

set_option maxRecDepth 1000000 in
/-- Counterexample to claim C8 as stated: two events with the same eleven
meaningful tokens in opposite order get different fuzzy signatures, and the
second is not detected as a duplicate of the first. -/
theorem claim_C8_counterexample :
    DD.meaningful_words fuzzyElevenB = (DD.meaningful_words fuzzyElevenA).reverse
    ∧ DD.fuzzy_signature fuzzyElevenA ≠ DD.fuzzy_signature fuzzyElevenB
    ∧ (DD.is_duplicate "t1" fuzzyElevenA []).1.1 = false
    ∧ (DD.is_duplicate "t2" fuzzyElevenB (DD.is_duplicate "t1" fuzzyElevenA []).2).1
        = (false, none) := by
  refine ⟨by decide, by decide, by decide, by decide⟩

theorem char_eq_iff_toNat {a b : Char} : a = b ↔ a.toNat = b.toNat :=
  ⟨fun h => h ▸ rfl, charEqOfToNat⟩

theorem char_toNat_ofNat {n : Nat} (h : n < 55296) : (Char.ofNat n).toNat = n := by
  have hv : n.isValidChar := Or.inl h
  simp [Char.ofNat, dif_pos hv, Char.ofNatAux, Char.toNat, UInt32.toNat]

theorem toLower_toNat (c : Char) : (Char.toLower c).toNat =
    if 65 ≤ c.toNat ∧ c.toNat ≤ 90 then c.toNat + 32 else c.toNat := by
  unfold Char.toLower
  dsimp only
  split_ifs with h1
  · exact char_toNat_ofNat (by omega)
  · rfl

theorem toUpper_toNat (c : Char) : (Char.toUpper c).toNat =
    if 97 ≤ c.toNat ∧ c.toNat ≤ 122 then c.toNat - 32 else c.toNat := by
  unfold Char.toUpper
  dsimp only
  split_ifs with h1
  · exact char_toNat_ofNat (by omega)
  · rfl

theorem toLower_toLower (c : Char) : c.toLower.toLower = c.toLower := by
  apply charEqOfToNat
  simp only [toLower_toNat]
  split_ifs <;> omega

theorem toUpper_toUpper (c : Char) : c.toUpper.toUpper = c.toUpper := by
  apply charEqOfToNat
  simp only [toUpper_toNat]
  split_ifs <;> omega

theorem toLower_toUpper (c : Char) : c.toUpper.toLower = c.toLower := by
  apply charEqOfToNat
  simp only [toLower_toNat, toUpper_toNat]
  split_ifs <;> omega

theorem isPyWs_toLower (c : Char) : isPyWs (Char.toLower c) = isPyWs c := by
  rw [Bool.eq_iff_iff]
  simp only [isPyWs, Bool.or_eq_true, beq_iff_eq, char_eq_iff_toNat,
    show (' ' : Char).toNat = 32 from rfl, show ('\t' : Char).toNat = 9 from rfl,
    show ('\n' : Char).toNat = 10 from rfl, show ('\r' : Char).toNat = 13 from rfl,
    show ('\x0b' : Char).toNat = 11 from rfl, show ('\x0c' : Char).toNat = 12 from rfl,
    toLower_toNat]
  split_ifs <;> omega

theorem isPyWs_toUpper (c : Char) : isPyWs (Char.toUpper c) = isPyWs c := by
  rw [Bool.eq_iff_iff]
  simp only [isPyWs, Bool.or_eq_true, beq_iff_eq, char_eq_iff_toNat,
    show (' ' : Char).toNat = 32 from rfl, show ('\t' : Char).toNat = 9 from rfl,
    show ('\n' : Char).toNat = 10 from rfl, show ('\r' : Char).toNat = 13 from rfl,
    show ('\x0b' : Char).toNat = 11 from rfl, show ('\x0c' : Char).toNat = 12 from rfl,
    toUpper_toNat]
  split_ifs <;> omega

theorem takeWhile_append_all {p : Char → Bool} :
    ∀ {m : List Char} (t : List Char), (∀ a ∈ m, p a = true) →
    (m ++ t).takeWhile p = m ++ t.takeWhile p
  | [], t, _ => rfl
  | a :: m, t, h => by
    have ha := h a (List.mem_cons_self a m)
    simp only [List.cons_append, List.takeWhile_cons, ha, if_true]
    rw [takeWhile_append_all t fun b hb => h b (List.mem_cons_of_mem a hb)]

theorem dropWhile_append_all {p : Char → Bool} :
    ∀ {m : List Char} (t : List Char), (∀ a ∈ m, p a = true) →
    (m ++ t).dropWhile p = t.dropWhile p
  | [], t, _ => rfl
  | a :: m, t, h => by
    have ha := h a (List.mem_cons_self a m)
    simp only [List.cons_append, List.dropWhile_cons, ha, if_true]
    exact dropWhile_append_all t fun b hb => h b (List.mem_cons_of_mem a hb)

theorem takeWhile_append_not {p : Char → Bool} :
    ∀ {m : List Char} (t : List Char), ¬ (∀ a ∈ m, p a = true) →
    (m ++ t).takeWhile p = m.takeWhile p
  | [], _, h => absurd (by simp) h
  | a :: m, t, h => by
    by_cases ha : p a = true
    · simp only [List.cons_append, List.takeWhile_cons, ha, if_true]
      rw [takeWhile_append_not t fun hall => h (by
        intro b hb
        rcases List.mem_cons.mp hb with rfl | hb
        · exact ha
        · exact hall b hb)]
    · simp only [List.cons_append, List.takeWhile_cons]
      rw [if_neg ha, if_neg ha]

theorem dropWhile_append_not {p : Char → Bool} :
    ∀ {m : List Char} (t : List Char), ¬ (∀ a ∈ m, p a = true) →
    (m ++ t).dropWhile p = m.dropWhile p ++ t
  | [], _, h => absurd (by simp) h
  | a :: m, t, h => by
    by_cases ha : p a = true
    · simp only [List.cons_append, List.dropWhile_cons, ha, if_true]
      exact dropWhile_append_not t fun hall => h (by
        intro b hb
        rcases List.mem_cons.mp hb with rfl | hb
        · exact ha
        · exact hall b hb)
    · simp only [List.cons_append, List.dropWhile_cons]
      rw [if_neg ha, if_neg ha]
      simp

theorem takeWhile_map_inv {p : Char → Bool} {f : Char → Char}
    (hf : ∀ c, p (f c) = p c) :
    ∀ l : List Char, (l.map f).takeWhile p = (l.takeWhile p).map f
  | [] => rfl
  | a :: l => by
    simp only [List.map_cons, List.takeWhile_cons, hf a]
    by_cases ha : p a = true
    · simp only [ha, if_true, List.map_cons, takeWhile_map_inv hf l]
    · rw [if_neg ha, if_neg ha]
      rfl

theorem dropWhile_map_inv {p : Char → Bool} {f : Char → Char}
    (hf : ∀ c, p (f c) = p c) :
    ∀ l : List Char, (l.map f).dropWhile p = (l.dropWhile p).map f
  | [] => rfl
  | a :: l => by
    simp only [List.map_cons, List.dropWhile_cons, hf a]
    by_cases ha : p a = true
    · simp only [ha, if_true, dropWhile_map_inv hf l]
    · rw [if_neg ha, if_neg ha]
      rfl

theorem splitWsF_irrel : ∀ (fuel : Nat) (l : List Char), l.length ≤ fuel →
    splitWsF fuel l = splitWs l
  | 0, l, h => by
    have : l = [] := List.eq_nil_of_length_eq_zero (Nat.le_zero.mp h)
    subst this
    rfl
  | fuel + 1, [], _ => rfl
  | fuel + 1, c :: rest, h => by
    by_cases hc : isPyWs c = true
    · have h1 : rest.length ≤ fuel := by
        simp only [List.length_cons] at h
        omega
      simp only [splitWsF, splitWs, List.length_cons]
      rw [if_pos hc, if_pos hc, splitWsF_irrel fuel rest h1,
        splitWsF_irrel rest.length rest le_rfl]
    · have h1 : (rest.dropWhile (fun d => !isPyWs d)).length ≤ fuel := by
        have := (List.dropWhile_suffix (l := rest) (fun d => !isPyWs d)).length_le
        simp only [List.length_cons] at h
        omega
      have h2 : (rest.dropWhile (fun d => !isPyWs d)).length ≤ rest.length :=
        (List.dropWhile_suffix _).length_le
      simp only [splitWsF, splitWs, List.length_cons]
      rw [if_neg hc, if_neg hc, splitWsF_irrel fuel _ h1, splitWsF_irrel _ _ h2]

theorem splitWs_cons_ws {c : Char} {rest : List Char} (h : isPyWs c = true) :
    splitWs (c :: rest) = splitWs rest := by
  show splitWsF (rest.length + 1) (c :: rest) = splitWs rest
  simp only [splitWsF]
  rw [if_pos h]
  exact splitWsF_irrel rest.length rest le_rfl

theorem splitWs_cons_word {c : Char} {rest : List Char} (h : isPyWs c = false) :
    splitWs (c :: rest) = (c :: rest.takeWhile (fun d => !isPyWs d))
      :: splitWs (rest.dropWhile (fun d => !isPyWs d)) := by
  show splitWsF (rest.length + 1) (c :: rest) = _
  simp only [splitWsF]
  rw [if_neg (by simp [h]), splitWsF_irrel rest.length _
    (List.dropWhile_suffix _).length_le]

theorem splitWs_all_ws : ∀ {l : List Char}, (∀ c ∈ l, isPyWs c = true) →
    splitWs l = []
  | [], _ => rfl
  | c :: rest, h => by
    rw [splitWs_cons_ws (h c (List.mem_cons_self c rest))]
    exact splitWs_all_ws fun d hd => h d (List.mem_cons_of_mem c hd)

theorem splitWs_words_good : ∀ l : List Char, ∀ w ∈ splitWs l,
    w ≠ [] ∧ ∀ c ∈ w, isPyWs c = false
  | [] => by
    intro w hw
    simp [splitWs, splitWsF] at hw
  | c :: rest => by
    intro w hw
    by_cases hc : isPyWs c = true
    · rw [splitWs_cons_ws hc] at hw
      exact splitWs_words_good rest w hw
    · replace hc : isPyWs c = false := by simpa using hc
      rw [splitWs_cons_word hc] at hw
      rcases List.mem_cons.mp hw with rfl | hw
      · refine ⟨by simp, ?_⟩
        intro d hd
        rcases List.mem_cons.mp hd with rfl | hd
        · exact hc
        · simpa using List.mem_takeWhile_imp hd
      · exact splitWs_words_good (rest.dropWhile (fun d => !isPyWs d)) w hw
termination_by l => l.length
decreasing_by
  · simp
  · exact Nat.lt_succ_of_le (List.dropWhile_suffix _).length_le

theorem splitWs_dropWhile_ws : ∀ l : List Char, splitWs (l.dropWhile isPyWs) = splitWs l
  | [] => rfl
  | c :: rest => by
    by_cases hc : isPyWs c = true
    · rw [List.dropWhile_cons, if_pos hc, splitWs_dropWhile_ws rest, splitWs_cons_ws hc]
    · rw [List.dropWhile_cons, if_neg hc]

theorem splitWs_append_ws {w : List Char} (hw : ∀ c ∈ w, isPyWs c = true) :
    ∀ l : List Char, splitWs (l ++ w) = splitWs l
  | [] => by simpa using splitWs_all_ws hw
  | c :: rest => by
    by_cases hc : isPyWs c = true
    · rw [List.cons_append, splitWs_cons_ws hc, splitWs_cons_ws hc]
      exact splitWs_append_ws hw rest
    · replace hc : isPyWs c = false := by simpa using hc
      rw [List.cons_append, splitWs_cons_word hc, splitWs_cons_word hc]
      by_cases hall : ∀ a ∈ rest, (!isPyWs a) = true
      · rw [takeWhile_append_all w hall, dropWhile_append_all w hall]
        have htw : w.takeWhile (fun d => !isPyWs d) = [] := by
          cases w with
          | nil => rfl
          | cons d w2 =>
            rw [List.takeWhile_cons,
              if_neg (by simp [hw d (List.mem_cons_self d w2)])]
        have hdw : w.dropWhile (fun d => !isPyWs d) = w := by
          cases w with
          | nil => rfl
          | cons d w2 =>
            rw [List.dropWhile_cons,
              if_neg (by simp [hw d (List.mem_cons_self d w2)])]
        have h1 : rest.takeWhile (fun d => !isPyWs d) = rest := by
          have := takeWhile_append_all (p := fun d => !isPyWs d) (m := rest) [] hall
          simpa using this
        have h2 : rest.dropWhile (fun d => !isPyWs d) = [] := by
          have := dropWhile_append_all (p := fun d => !isPyWs d) (m := rest) [] hall
          simpa using this
        rw [htw, hdw, List.append_nil, h1, h2, splitWs_all_ws hw]
        rfl
      · rw [takeWhile_append_not w hall, dropWhile_append_not w hall]
        congr 1
        exact splitWs_append_ws hw (rest.dropWhile (fun d => !isPyWs d))
termination_by l => l.length
decreasing_by
  · simp
  · exact Nat.lt_succ_of_le (List.dropWhile_suffix _).length_le

theorem splitWs_strip (l : List Char) : splitWs (stripChars l) = splitWs l := by
  unfold stripChars
  set m := l.dropWhile isPyWs with hm
  have hdec : m = (m.reverse.dropWhile isPyWs).reverse
      ++ (m.reverse.takeWhile isPyWs).reverse := by
    conv_lhs => rw [← List.reverse_reverse m,
      ← List.takeWhile_append_dropWhile (p := isPyWs) (l := m.reverse)]
    rw [List.reverse_append]
  have hws : ∀ c ∈ (m.reverse.takeWhile isPyWs).reverse, isPyWs c = true :=
    fun c hc => List.mem_takeWhile_imp (List.mem_reverse.mp hc)
  calc splitWs ((m.reverse.dropWhile isPyWs).reverse)
      = splitWs ((m.reverse.dropWhile isPyWs).reverse
          ++ (m.reverse.takeWhile isPyWs).reverse) := (splitWs_append_ws hws _).symm
    _ = splitWs m := by rw [← hdec]
    _ = splitWs l := splitWs_dropWhile_ws l

theorem splitWs_lc : ∀ l : List Char, splitWs (lcList l) = (splitWs l).map lcList
  | [] => rfl
  | c :: rest => by
    have hstep : lcList (c :: rest) = Char.toLower c :: lcList rest := rfl
    by_cases hc : isPyWs c = true
    · have hc2 : isPyWs (Char.toLower c) = true := by rw [isPyWs_toLower]; exact hc
      rw [hstep, splitWs_cons_ws hc2, splitWs_cons_ws hc, splitWs_lc rest]
    · replace hc : isPyWs c = false := by simpa using hc
      have hc2 : isPyWs (Char.toLower c) = false := by rw [isPyWs_toLower]; exact hc
      have hp : ∀ d, (fun d => !isPyWs d) (Char.toLower d) = (fun d => !isPyWs d) d :=
        fun d => by simp [isPyWs_toLower]
      rw [hstep, splitWs_cons_word hc2, splitWs_cons_word hc,
        show lcList rest = rest.map Char.toLower from rfl,
        takeWhile_map_inv hp, dropWhile_map_inv hp,
        show (rest.dropWhile (fun d => !isPyWs d)).map Char.toLower
          = lcList (rest.dropWhile (fun d => !isPyWs d)) from rfl,
        splitWs_lc (rest.dropWhile (fun d => !isPyWs d))]
      simp [lcList]
termination_by l => l.length
decreasing_by
  · simp
  · exact Nat.lt_succ_of_le (List.dropWhile_suffix _).length_le

theorem splitWs_join : ∀ ws : List (List Char),
    (∀ w ∈ ws, w ≠ [] ∧ ∀ c ∈ w, isPyWs c = false) →
    splitWs (joinSpace ws) = ws
  | [], _ => rfl
  | w :: rest, h => by
    obtain ⟨hne, hnw⟩ := h w (List.mem_cons_self w rest)
    cases w with
    | nil => exact absurd rfl hne
    | cons c wt =>
      have hc : isPyWs c = false := hnw c (List.mem_cons_self c wt)
      have hall : ∀ a ∈ wt, (!isPyWs a) = true :=
        fun a ha => by simp [hnw a (List.mem_cons_of_mem c ha)]
      cases rest with
      | nil =>
        rw [show joinSpace [c :: wt] = (c :: wt) ++ [] from rfl, List.append_nil,
          splitWs_cons_word hc]
        have h1 : wt.takeWhile (fun d => !isPyWs d) = wt := by
          have := takeWhile_append_all (p := fun d => !isPyWs d) (m := wt) [] hall
          simpa using this
        have h2 : wt.dropWhile (fun d => !isPyWs d) = [] := by
          have := dropWhile_append_all (p := fun d => !isPyWs d) (m := wt) [] hall
          simpa using this
        rw [h1, h2]
        rfl
      | cons u rest2 =>
        have hjoin : joinSpace ((c :: wt) :: u :: rest2)
            = (c :: wt) ++ ' ' :: joinSpace (u :: rest2) := by
          simp [joinSpace, List.intersperse]
        rw [hjoin, List.cons_append, splitWs_cons_word hc,
          takeWhile_append_all _ hall, dropWhile_append_all _ hall,
          show ((' ' :: joinSpace (u :: rest2)).takeWhile (fun d => !isPyWs d)) = []
            from by rw [List.takeWhile_cons]; simp [isPyWs],
          show ((' ' :: joinSpace (u :: rest2)).dropWhile (fun d => !isPyWs d))
              = ' ' :: joinSpace (u :: rest2)
            from by rw [List.dropWhile_cons]; simp [isPyWs],
          List.append_nil,
          splitWs_cons_ws (show isPyWs ' ' = true from rfl),
          splitWs_join (u :: rest2) (fun v hv => h v (List.mem_cons_of_mem _ hv))]

theorem head_dropWhile_not_ws : ∀ (l : List Char) (c : Char),
    (l.dropWhile isPyWs).head? = some c → isPyWs c = false
  | [], c => by simp
  | a :: l, c => by
    rw [List.dropWhile_cons]
    split_ifs with ha
    · exact head_dropWhile_not_ws l c
    · intro h
      rw [List.head?_cons, Option.some.injEq] at h
      subst h
      simpa using ha

theorem strip_noLead (l : List Char) : noLeadWs (stripChars l) := by
  intro c hc
  unfold stripChars at hc
  set m := l.dropWhile isPyWs with hm
  have hpre : (m.reverse.dropWhile isPyWs).reverse <+: m := by
    have := List.reverse_prefix.mpr (List.dropWhile_suffix (l := m.reverse) isPyWs)
    rwa [List.reverse_reverse] at this
  obtain ⟨t, ht⟩ := hpre
  rcases hrev : (m.reverse.dropWhile isPyWs).reverse with _ | ⟨a, as⟩
  · rw [hrev] at hc
    simp at hc
  · rw [hrev] at hc ht
    rw [List.head?_cons, Option.some.injEq] at hc
    subst hc
    have hhead : m.head? = some a := by
      rw [← ht]
      rfl
    rw [hm] at hhead
    exact head_dropWhile_not_ws l a hhead

theorem strip_noTrail (l : List Char) : noTrailWs (stripChars l) := by
  intro c hc
  unfold stripChars at hc
  rw [List.getLast?_reverse] at hc
  exact head_dropWhile_not_ws _ c hc

theorem dropWhile_eq_self_of_noLead {l : List Char} (h : noLeadWs l) :
    l.dropWhile isPyWs = l := by
  cases l with
  | nil => rfl
  | cons c rest => rw [List.dropWhile_cons, if_neg (by simp [h c rfl])]

theorem strip_of_noEdge {l : List Char} (h1 : noLeadWs l) (h2 : noTrailWs l) :
    stripChars l = l := by
  unfold stripChars
  rw [dropWhile_eq_self_of_noLead h1]
  have h3 : noLeadWs l.reverse := by
    intro c hc
    rw [List.head?_reverse] at hc
    exact h2 c hc
  rw [dropWhile_eq_self_of_noLead h3, List.reverse_reverse]

theorem splitWs_eq_nil : ∀ {l : List Char}, splitWs l = [] → ∀ c ∈ l, isPyWs c = true
  | [], _, c, hc => by simp at hc
  | a :: rest, h, c, hc => by
    by_cases ha : isPyWs a = true
    · rcases List.mem_cons.mp hc with rfl | hc2
      · exact ha
      · rw [splitWs_cons_ws ha] at h
        exact splitWs_eq_nil h c hc2
    · replace ha : isPyWs a = false := by simpa using ha
      rw [splitWs_cons_word ha] at h
      simp at h

theorem splitWs_single {x w : List Char} (h : splitWs x = [w]) : stripChars x = w := by
  have hs : splitWs (stripChars x) = [w] := by
    rw [splitWs_strip]
    exact h
  have hL := strip_noLead x
  have hT := strip_noTrail x
  rcases hy : stripChars x with _ | ⟨c, rest⟩
  · rw [hy] at hs
    simp [splitWs, splitWsF] at hs
  · rw [hy] at hs hL hT
    have hc : isPyWs c = false := hL c rfl
    rw [splitWs_cons_word hc, List.cons.injEq] at hs
    obtain ⟨hw, hnil⟩ := hs
    have hd := splitWs_eq_nil hnil
    rcases hdw : rest.dropWhile (fun d => !isPyWs d) with _ | ⟨b, bs⟩
    · have htk : rest.takeWhile (fun d => !isPyWs d) = rest := by
        conv_rhs => rw [← List.takeWhile_append_dropWhile
          (p := fun d => !isPyWs d) (l := rest)]
        rw [hdw, List.append_nil]
      rw [← hw, htk]
    · exfalso
      rw [hdw] at hd
      obtain ⟨z, hz⟩ : ∃ z, (b :: bs).getLast? = some z := by
        cases hbb : (b :: bs).getLast? with
        | none =>
          rw [List.getLast?_eq_none_iff] at hbb
          exact absurd hbb (by simp)
        | some z => exact ⟨z, rfl⟩
      have hzin : z ∈ b :: bs := List.mem_of_getLast?_eq_some hz
      have hzws : isPyWs z = true := hd z hzin
      have hrest : rest = rest.takeWhile (fun d => !isPyWs d) ++ (b :: bs) := by
        conv_lhs => rw [← List.takeWhile_append_dropWhile
          (p := fun d => !isPyWs d) (l := rest)]
        rw [hdw]
      have hlast : (c :: rest).getLast? = some z := by
        conv_lhs => rw [hrest]
        rw [show c :: (rest.takeWhile (fun d => !isPyWs d) ++ (b :: bs))
          = (c :: rest.takeWhile (fun d => !isPyWs d)) ++ (b :: bs) from rfl]
        rw [List.getLast?_append, hz]
        rfl
      rw [hT z hlast] at hzws
      exact absurd hzws (by simp)

theorem joinSpace_cons_cons (w u : List Char) (rest : List (List Char)) :
    joinSpace (w :: u :: rest) = w ++ ' ' :: joinSpace (u :: rest) := by
  simp [joinSpace, List.intersperse]

theorem joinSpace_ne_nil {w : List Char} (hne : w ≠ []) (rest : List (List Char)) :
    joinSpace (w :: rest) ≠ [] := by
  cases rest with
  | nil =>
    rw [show joinSpace [w] = w ++ [] from rfl, List.append_nil]
    exact hne
  | cons u rest2 =>
    rw [joinSpace_cons_cons]
    cases w with
    | nil => exact absurd rfl hne
    | cons c wt => simp

theorem joinSpace_noLead {ws : List (List Char)}
    (h : ∀ w ∈ ws, w ≠ [] ∧ ∀ c ∈ w, isPyWs c = false) :
    noLeadWs (joinSpace ws) := by
  cases ws with
  | nil =>
    intro c hc
    simp [joinSpace] at hc
  | cons w rest =>
    obtain ⟨hne, hnw⟩ := h w (List.mem_cons_self w rest)
    cases w with
    | nil => exact absurd rfl hne
    | cons c wt =>
      intro d hd
      cases rest with
      | nil =>
        rw [show joinSpace [c :: wt] = (c :: wt) ++ [] from rfl, List.append_nil,
          List.head?_cons, Option.some.injEq] at hd
        subst hd
        exact hnw c (List.mem_cons_self c wt)
      | cons u rest2 =>
        rw [joinSpace_cons_cons, List.cons_append, List.head?_cons,
          Option.some.injEq] at hd
        subst hd
        exact hnw c (List.mem_cons_self c wt)

theorem joinSpace_noTrail : ∀ ws : List (List Char),
    (∀ w ∈ ws, w ≠ [] ∧ ∀ c ∈ w, isPyWs c = false) →
    noTrailWs (joinSpace ws)
  | [], _ => by
    intro c hc
    simp [joinSpace] at hc
  | [w], h => by
    intro c hc
    rw [show joinSpace [w] = w ++ [] from rfl, List.append_nil] at hc
    exact (h w (List.mem_cons_self w [])).2 c (List.mem_of_getLast?_eq_some hc)
  | w :: u :: rest, h => by
    have ih := joinSpace_noTrail (u :: rest)
      (fun v hv => h v (List.mem_cons_of_mem w hv))
    intro c hc
    rw [joinSpace_cons_cons] at hc
    have hne : joinSpace (u :: rest) ≠ [] :=
      joinSpace_ne_nil (h u (List.mem_cons_of_mem w (List.mem_cons_self u rest))).1 rest
    rcases hj : joinSpace (u :: rest) with _ | ⟨b, bs⟩
    · exact absurd hj hne
    · rw [hj] at hc ih
      rw [List.getLast?_append_cons, List.getLast?_cons_cons] at hc
      exact ih c hc

theorem space_mem_joinSpace (w u : List Char) (rest : List (List Char)) :
    ' ' ∈ joinSpace (w :: u :: rest) := by
  rw [joinSpace_cons_cons]
  exact List.mem_append_right w (List.mem_cons_self ' ' _)

theorem joinSpace_eq_single {ws : List (List Char)} {k : List Char}
    (hj : joinSpace ws = k) (hk : k ≠ []) (hsp : ' ' ∉ k) : ws = [k] := by
  cases ws with
  | nil =>
    rw [show joinSpace ([] : List (List Char)) = [] from rfl] at hj
    exact absurd hj.symm hk
  | cons w rest =>
    cases rest with
    | nil =>
      rw [show joinSpace [w] = w ++ [] from rfl, List.append_nil] at hj
      rw [hj]
    | cons u rest2 =>
      exact absurd (hj ▸ space_mem_joinSpace w u rest2) hsp

theorem lcList_good {w : List Char} (hne : w ≠ []) (hnw : ∀ c ∈ w, isPyWs c = false) :
    lcList w ≠ [] ∧ ∀ c ∈ lcList w, isPyWs c = false := by
  constructor
  · cases w with
    | nil => exact absurd rfl hne
    | cons c t => simp [lcList]
  · intro c hc
    obtain ⟨d, hd, rfl⟩ := List.mem_map.mp hc
    rw [isPyWs_toLower]
    exact hnw d hd

theorem capWord_good {w : List Char} (hne : w ≠ []) (hnw : ∀ c ∈ w, isPyWs c = false) :
    capWord w ≠ [] ∧ ∀ c ∈ capWord w, isPyWs c = false := by
  cases w with
  | nil => exact absurd rfl hne
  | cons c t =>
    refine ⟨by simp [capWord], ?_⟩
    intro d hd
    rw [show capWord (c :: t) = c.toUpper :: lcList t from rfl] at hd
    rcases List.mem_cons.mp hd with rfl | hd2
    · rw [isPyWs_toUpper]
      exact hnw c (List.mem_cons_self c t)
    · obtain ⟨e, he, rfl⟩ := List.mem_map.mp hd2
      rw [isPyWs_toLower]
      exact hnw e (List.mem_cons_of_mem c he)

theorem lcList_idem (l : List Char) : lcList (lcList l) = lcList l := by
  unfold lcList
  have h : Char.toLower ∘ Char.toLower = Char.toLower := funext toLower_toLower
  rw [List.map_map, h]

theorem capWord_idem (w : List Char) : capWord (capWord w) = capWord w := by
  cases w with
  | nil => rfl
  | cons c t =>
    rw [show capWord (c :: t) = c.toUpper :: lcList t from rfl,
      show capWord (c.toUpper :: lcList t) = c.toUpper.toUpper :: lcList (lcList t)
        from rfl,
      toUpper_toUpper, lcList_idem]

theorem lc_capWord (w : List Char) : lcList (capWord w) = lcList w := by
  cases w with
  | nil => rfl
  | cons c t =>
    rw [show capWord (c :: t) = c.toUpper :: lcList t from rfl,
      show lcList (c.toUpper :: lcList t) = c.toUpper.toLower :: lcList (lcList t)
        from rfl,
      toLower_toUpper, lcList_idem]
    rfl

theorem lcList_joinSpace : ∀ ws : List (List Char),
    lcList (joinSpace ws) = joinSpace (ws.map lcList)
  | [] => rfl
  | [w] => by
    rw [show joinSpace [w] = w ++ [] from rfl, List.append_nil,
      show List.map lcList [w] = [lcList w] from rfl,
      show joinSpace [lcList w] = lcList w ++ [] from rfl, List.append_nil]
  | w :: u :: rest => by
    rw [joinSpace_cons_cons,
      show List.map lcList (w :: u :: rest)
        = lcList w :: lcList u :: List.map lcList rest from rfl,
      joinSpace_cons_cons,
      show lcList (w ++ ' ' :: joinSpace (u :: rest))
        = lcList w ++ lcList (' ' :: joinSpace (u :: rest)) from by simp [lcList],
      show lcList (' ' :: joinSpace (u :: rest))
        = ' ' :: lcList (joinSpace (u :: rest)) from rfl,
      lcList_joinSpace (u :: rest)]
    rfl

theorem strip_lc (l : List Char) : stripChars (lcList l) = lcList (stripChars l) := by
  unfold stripChars
  rw [show lcList l = l.map Char.toLower from rfl,
    dropWhile_map_inv isPyWs_toLower, ← List.map_reverse,
    dropWhile_map_inv isPyWs_toLower, ← List.map_reverse]
  rfl

theorem lookup_some_mem : ∀ (l : List (String × String)) (k v : String),
    l.lookup k = some v → (k, v) ∈ l
  | [], k, v, h => by simp [List.lookup] at h
  | (a, b) :: t, k, v, h => by
    by_cases hk : k = a
    · subst hk
      rw [List.lookup_cons] at h
      simp at h
      rw [h]
      exact List.mem_cons_self _ _
    · rw [List.lookup_cons, beq_false_of_ne hk] at h
      exact List.mem_cons_of_mem _ (lookup_some_mem t k v h)

theorem lookup_none_keys : ∀ (l : List (String × String)) (k : String),
    l.lookup k = none → ∀ p ∈ l, p.1 ≠ k
  | [], _, _, p, hp => by simp at hp
  | (a, b) :: t, k, h, p, hp => by
    by_cases hk : k = a
    · subst hk
      rw [List.lookup_cons] at h
      simp at h
    · rcases List.mem_cons.mp hp with rfl | hp2
      · exact fun hne => hk hne.symm
      · rw [List.lookup_cons, beq_false_of_ne hk] at h
        exact lookup_none_keys t k h p hp2

set_option maxRecDepth 100000 in
theorem alias_values_fixed :
    ∀ p ∈ DN.location_aliases, DN.normalize_location p.2 = p.2 := by decide

set_option maxRecDepth 100000 in
theorem alias_keys_shape :
    ∀ p ∈ DN.location_aliases, p.1.data ≠ [] ∧ ' ' ∉ p.1.data := by decide

theorem norm_location_of_none {s : String}
    (h : DN.location_aliases.lookup (lcStripStr s) = none) :
    DN.normalize_location s
      = ⟨joinSpace ((splitWs (stripStr s).data).map capWord)⟩ := by
  unfold DN.normalize_location
  rw [h]

theorem norm_location_canon {V : List (List Char)}
    (hgood : ∀ w ∈ V, w ≠ [] ∧ ∀ c ∈ w, isPyWs c = false)
    (hlk : DN.location_aliases.lookup (⟨joinSpace (V.map lcList)⟩ : String) = none) :
    DN.normalize_location ⟨joinSpace (V.map capWord)⟩
      = ⟨joinSpace (V.map capWord)⟩ := by
  have hWgood : ∀ w ∈ V.map capWord, w ≠ [] ∧ ∀ c ∈ w, isPyWs c = false := by
    intro w hw
    obtain ⟨v, hv, rfl⟩ := List.mem_map.mp hw
    exact capWord_good (hgood v hv).1 (hgood v hv).2
  have hWlcgood : ∀ w ∈ V.map lcList, w ≠ [] ∧ ∀ c ∈ w, isPyWs c = false := by
    intro w hw
    obtain ⟨v, hv, rfl⟩ := List.mem_map.mp hw
    exact lcList_good (hgood v hv).1 (hgood v hv).2
  have hcomp : lcList ∘ capWord = lcList := funext lc_capWord
  have hlcW : (V.map capWord).map lcList = V.map lcList := by
    rw [List.map_map, hcomp]
  have hkey : lcStripStr (⟨joinSpace (V.map capWord)⟩ : String)
      = ⟨joinSpace (V.map lcList)⟩ := by
    show (⟨stripChars (lcList (joinSpace (V.map capWord)))⟩ : String) = _
    rw [lcList_joinSpace, hlcW,
      strip_of_noEdge (joinSpace_noLead hWlcgood) (joinSpace_noTrail _ hWlcgood)]
  have h1 : DN.location_aliases.lookup
      (lcStripStr (⟨joinSpace (V.map capWord)⟩ : String)) = none := by
    rw [hkey]
    exact hlk
  rw [norm_location_of_none h1]
  have hstr : stripChars (joinSpace (V.map capWord)) = joinSpace (V.map capWord) :=
    strip_of_noEdge (joinSpace_noLead hWgood) (joinSpace_noTrail _ hWgood)
  have hsplit : splitWs (joinSpace (V.map capWord)) = V.map capWord :=
    splitWs_join _ hWgood
  have hcomp2 : capWord ∘ capWord = capWord := funext capWord_idem
  have hcap2 : (V.map capWord).map capWord = V.map capWord := by
    rw [List.map_map, hcomp2]
  show (⟨joinSpace ((splitWs (stripChars (joinSpace (V.map capWord)))).map capWord)⟩
    : String) = _
  rw [hstr, hsplit, hcap2]

theorem second_lookup_none {s : String}
    (hlk : DN.location_aliases.lookup (lcStripStr s) = none) :
    DN.location_aliases.lookup
      (⟨joinSpace ((splitWs s.data).map lcList)⟩ : String) = none := by
  set L := (splitWs s.data).map lcList with hL
  cases h2 : DN.location_aliases.lookup (⟨joinSpace L⟩ : String) with
  | none => rfl
  | some v2 =>
    exfalso
    have hmem := lookup_some_mem _ _ _ h2
    have hshape := alias_keys_shape _ hmem
    have hne : joinSpace L ≠ [] := hshape.1
    have hnsp : ' ' ∉ joinSpace L := hshape.2
    have hsingle : L = [joinSpace L] := joinSpace_eq_single rfl hne hnsp
    cases hV : splitWs s.data with
    | nil =>
      rw [hV] at hL
      rw [hL] at hsingle
      simp at hsingle
    | cons a t =>
      cases t with
      | cons b t2 =>
        rw [hV] at hL
        rw [show List.map lcList (a :: b :: t2)
          = lcList a :: lcList b :: List.map lcList t2 from rfl] at hL
        rw [hL] at hnsp
        exact hnsp (space_mem_joinSpace _ _ _)
      | nil =>
        rw [hV] at hL
        have hkey : lcList a = joinSpace L := by
          have h3 := hL.symm.trans hsingle
          simpa using h3
        have hlss : lcStripStr s = ⟨joinSpace L⟩ := by
          show (⟨stripChars (lcList s.data)⟩ : String) = _
          rw [strip_lc, splitWs_single hV, hkey]
        exact lookup_none_keys DN.location_aliases (lcStripStr s) hlk
          (⟨joinSpace L⟩, v2) hmem hlss.symm

theorem norm_location_idem (s : String) :
    DN.normalize_location (DN.normalize_location s) = DN.normalize_location s := by
  cases hlk : DN.location_aliases.lookup (lcStripStr s) with
  | some v =>
    have h1 : DN.normalize_location s = v := by
      unfold DN.normalize_location
      rw [hlk]
    rw [h1]
    exact alias_values_fixed (lcStripStr s, v) (lookup_some_mem _ _ _ hlk)
  | none =>
    have h1 : DN.normalize_location s
        = ⟨joinSpace ((splitWs s.data).map capWord)⟩ := by
      rw [norm_location_of_none hlk]
      show (⟨joinSpace ((splitWs (stripChars s.data)).map capWord)⟩ : String) = _
      rw [splitWs_strip]
    rw [h1]
    exact norm_location_canon (splitWs_words_good s.data) (second_lookup_none hlk)

theorem lcStr_idem (s : String) : lcStr (lcStr s) = lcStr s := by
  show (⟨lcList (lcList s.data)⟩ : String) = ⟨lcList s.data⟩
  rw [lcList_idem]

theorem lcStripStr_lcStr (s : String) : lcStripStr (lcStr s) = lcStripStr s := by
  show stripStr (lcStr (lcStr s)) = stripStr (lcStr s)
  rw [lcStr_idem]

set_option maxRecDepth 1000000 in
theorem sector_values_selfnormal :
    ∀ p ∈ DN.sector_mappings,
      DN.sector_mappings.lookup (lcStripStr p.2) = none ∧ lcStr p.2 = p.2 := by
  decide

theorem sectors_aux_some {acc : List String} {x v : String} {rest : List String}
    (h : DN.sector_mappings.lookup (lcStripStr x) = some v) :
    DN.normalize_sectors_aux acc (x :: rest)
      = DN.normalize_sectors_aux (if v ∈ acc then acc else acc ++ [v]) rest := by
  conv_lhs => unfold DN.normalize_sectors_aux
  rw [h]

theorem sectors_aux_none {acc : List String} {x : String} {rest : List String}
    (h : DN.sector_mappings.lookup (lcStripStr x) = none) :
    DN.normalize_sectors_aux acc (x :: rest)
      = DN.normalize_sectors_aux
          (if lcStr x ∈ acc then acc else acc ++ [lcStr x]) rest := by
  conv_lhs => unfold DN.normalize_sectors_aux
  rw [h]

theorem append_one_good {acc : List String} {v : String}
    (hsn : ∀ x ∈ acc, sectorSelfNormal x) (hnd : acc.Nodup)
    (hv : sectorSelfNormal v) :
    (∀ x ∈ (if v ∈ acc then acc else acc ++ [v]), sectorSelfNormal x)
      ∧ (if v ∈ acc then acc else acc ++ [v]).Nodup := by
  split_ifs with hm
  · exact ⟨hsn, hnd⟩
  · constructor
    · intro x hx
      rcases List.mem_append.mp hx with hx2 | hx2
      · exact hsn x hx2
      · rw [List.mem_singleton.mp hx2]
        exact hv
    · rw [List.nodup_append]
      refine ⟨hnd, List.nodup_singleton v, ?_⟩
      intro a ha hav
      rw [List.mem_singleton] at hav
      exact hm (hav ▸ ha)

theorem sectors_aux_inv : ∀ (L acc : List String),
    (∀ x ∈ acc, sectorSelfNormal x) → acc.Nodup →
    (∀ x ∈ DN.normalize_sectors_aux acc L, sectorSelfNormal x)
      ∧ (DN.normalize_sectors_aux acc L).Nodup
  | [], acc, hsn, hnd => ⟨hsn, hnd⟩
  | x :: rest, acc, hsn, hnd => by
    cases hlk : DN.sector_mappings.lookup (lcStripStr x) with
    | some v =>
      rw [sectors_aux_some hlk]
      have hv : sectorSelfNormal v :=
        sector_values_selfnormal (lcStripStr x, v)
          (lookup_some_mem _ _ _ hlk)
      obtain ⟨h1, h2⟩ := append_one_good hsn hnd hv
      exact sectors_aux_inv rest _ h1 h2
    | none =>
      rw [sectors_aux_none hlk]
      have hv : sectorSelfNormal (lcStr x) := by
        constructor
        · rw [lcStripStr_lcStr]
          exact hlk
        · exact lcStr_idem x
      obtain ⟨h1, h2⟩ := append_one_good hsn hnd hv
      exact sectors_aux_inv rest _ h1 h2

theorem sectors_aux_replay : ∀ (L acc : List String),
    (∀ x ∈ L, sectorSelfNormal x) → (acc ++ L).Nodup →
    DN.normalize_sectors_aux acc L = acc ++ L
  | [], acc, _, _ => by simp [DN.normalize_sectors_aux]
  | x :: rest, acc, hsn, hnd => by
    obtain ⟨hlk, hlc⟩ := hsn x (List.mem_cons_self x rest)
    rw [sectors_aux_none hlk, hlc]
    have hxnot : x ∉ acc := by
      rw [List.nodup_append] at hnd
      exact fun hmem => hnd.2.2 hmem (List.mem_cons_self x rest)
    rw [if_neg hxnot]
    rw [sectors_aux_replay rest (acc ++ [x])
      (fun y hy => hsn y (List.mem_cons_of_mem x hy))
      (by rw [List.append_assoc]; exact hnd)]
    simp

theorem norm_sectors_idem (l : List String) :
    DN.normalize_sectors (DN.normalize_sectors l) = DN.normalize_sectors l := by
  obtain ⟨h1, h2⟩ := sectors_aux_inv l [] (by simp) List.nodup_nil
  show DN.normalize_sectors_aux [] (DN.normalize_sectors_aux [] l) = _
  rw [sectors_aux_replay _ [] h1 (by simpa using h2)]
  rfl

theorem collapseAux_true_cons (c : Char) (rest : List Char) :
    collapseWsAux true (c :: rest)
      = if isPyWs c then collapseWsAux true rest
        else c :: collapseWsAux false rest := rfl

theorem collapseAux_false_cons (c : Char) (rest : List Char) :
    collapseWsAux false (c :: rest)
      = if isPyWs c then ' ' :: collapseWsAux true rest
        else c :: collapseWsAux false rest := rfl

theorem collapseAux_nil (b : Bool) : collapseWsAux b [] = [] := by
  cases b <;> rfl

theorem collapseAux_word_cons {c : Char} (b : Bool) (rest : List Char)
    (hc : isPyWs c = false) :
    collapseWsAux b (c :: rest) = c :: collapseWsAux false rest := by
  cases b
  · rw [collapseAux_false_cons, if_neg (by simp [hc])]
  · rw [collapseAux_true_cons, if_neg (by simp [hc])]

theorem head_collapseAux_true : ∀ (l : List Char) (c : Char),
    (collapseWsAux true l).head? = some c → isPyWs c = false
  | [], c => by
    intro h
    rw [collapseAux_nil] at h
    simp at h
  | d :: rest, c => by
    by_cases hd : isPyWs d = true
    · rw [collapseAux_true_cons, if_pos hd]
      exact head_collapseAux_true rest c
    · replace hd : isPyWs d = false := by simpa using hd
      rw [collapseAux_word_cons true rest hd]
      intro h
      rw [List.head?_cons, Option.some.injEq] at h
      exact h ▸ hd

theorem spacedOk_collapseAux : ∀ (b : Bool) (l : List Char),
    spacedOk (collapseWsAux b l)
  | b, [] => by
    rw [collapseAux_nil]
    trivial
  | b, d :: rest => by
    by_cases hd : isPyWs d = true
    · cases b
      · rw [collapseAux_false_cons, if_pos hd]
        exact ⟨fun _ => ⟨rfl, fun c hc => head_collapseAux_true rest c hc⟩,
          spacedOk_collapseAux true rest⟩
      · rw [collapseAux_true_cons, if_pos hd]
        exact spacedOk_collapseAux true rest
    · replace hd : isPyWs d = false := by simpa using hd
      rw [collapseAux_word_cons b rest hd]
      exact ⟨fun h => absurd h (by simp [hd]), spacedOk_collapseAux false rest⟩

theorem noLead_collapse {l : List Char} (h : noLeadWs l) :
    noLeadWs (collapseWsAux false l) := by
  cases l with
  | nil =>
    rw [collapseAux_nil]
    intro c hc
    simp at hc
  | cons d rest =>
    have hd : isPyWs d = false := h d rfl
    rw [collapseAux_word_cons false rest hd]
    intro c hc
    rw [List.head?_cons, Option.some.injEq] at hc
    exact hc ▸ hd

theorem collapseAux_getLast : ∀ (b : Bool) (l : List Char) (z : Char),
    l.getLast? = some z → isPyWs z = false →
    (collapseWsAux b l).getLast? = some z
  | b, [], z => by
    intro h _
    simp at h
  | b, [d], z => by
    intro h hz
    rw [show ([d] : List Char).getLast? = some d from rfl, Option.some.injEq] at h
    subst h
    rw [collapseAux_word_cons b [] hz, collapseAux_nil]
    rfl
  | b, d :: e :: rest, z => by
    intro h hz
    rw [List.getLast?_cons_cons] at h
    have IH : ∀ b2, (collapseWsAux b2 (e :: rest)).getLast? = some z :=
      fun b2 => collapseAux_getLast b2 (e :: rest) z h hz
    have hne : ∀ b2, collapseWsAux b2 (e :: rest) ≠ [] := by
      intro b2 h0
      have h1 := IH b2
      rw [h0] at h1
      simp at h1
    by_cases hd : isPyWs d = true
    · cases b
      · rw [collapseAux_false_cons, if_pos hd]
        rcases hm : collapseWsAux true (e :: rest) with _ | ⟨x, xs⟩
        · exact absurd hm (hne true)
        · rw [List.getLast?_cons_cons, ← hm]
          exact IH true
      · rw [collapseAux_true_cons, if_pos hd]
        exact IH true
    · replace hd : isPyWs d = false := by simpa using hd
      rw [collapseAux_word_cons b (e :: rest) hd]
      rcases hm : collapseWsAux false (e :: rest) with _ | ⟨x, xs⟩
      · exact absurd hm (hne false)
      · rw [List.getLast?_cons_cons, ← hm]
        exact IH false

theorem noTrail_collapse {b : Bool} {l : List Char} (h : noTrailWs l) :
    noTrailWs (collapseWsAux b l) := by
  cases hl : l.getLast? with
  | none =>
    rw [List.getLast?_eq_none_iff] at hl
    subst hl
    rw [collapseAux_nil]
    intro c hc
    simp at hc
  | some z =>
    have hz : isPyWs z = false := h z hl
    intro c hc
    rw [collapseAux_getLast b l z hl hz, Option.some.injEq] at hc
    exact hc ▸ hz

theorem mem_collapseAux : ∀ (b : Bool) (l : List Char) (c : Char),
    c ∈ collapseWsAux b l → c ∈ l ∨ c = ' '
  | b, [], c => by
    intro h
    rw [collapseAux_nil] at h
    simp at h
  | b, d :: rest, c => by
    intro h
    by_cases hd : isPyWs d = true
    · have step : ∀ h2 : c ∈ collapseWsAux true rest, c ∈ d :: rest ∨ c = ' ' := by
        intro h2
        rcases mem_collapseAux true rest c h2 with h3 | h3
        · exact Or.inl (List.mem_cons_of_mem d h3)
        · exact Or.inr h3
      cases b
      · rw [collapseAux_false_cons, if_pos hd] at h
        rcases List.mem_cons.mp h with rfl | h2
        · exact Or.inr rfl
        · exact step h2
      · rw [collapseAux_true_cons, if_pos hd] at h
        exact step h
    · replace hd : isPyWs d = false := by simpa using hd
      rw [collapseAux_word_cons b rest hd] at h
      rcases List.mem_cons.mp h with rfl | h2
      · exact Or.inl (List.mem_cons_self c rest)
      · rcases mem_collapseAux false rest c h2 with h3 | h3
        · exact Or.inl (List.mem_cons_of_mem d h3)
        · exact Or.inr h3

theorem collapseAux_fix : ∀ u : List Char, spacedOk u →
    collapseWsAux false u = u ∧ (noLeadWs u → collapseWsAux true u = u)
  | [], _ => ⟨rfl, fun _ => by rw [collapseAux_nil]⟩
  | c :: rest, h => by
    obtain ⟨hws, hrest⟩ := h
    have IH := collapseAux_fix rest hrest
    by_cases hc : isPyWs c = true
    · obtain ⟨hsp, hlead⟩ := hws hc
      subst hsp
      constructor
      · rw [collapseAux_false_cons, if_pos hc]
        congr 1
        exact IH.2 hlead
      · intro hlead2
        have h0 := hlead2 ' ' rfl
        rw [h0] at hc
        exact absurd hc (by simp)
    · replace hc : isPyWs c = false := by simpa using hc
      constructor
      · rw [collapseAux_word_cons false rest hc]
        congr 1
        exact IH.1
      · intro h0
        rw [collapseAux_word_cons true rest hc]
        congr 1
        exact IH.1

theorem collapse_fix (u : List Char) (h : spacedOk u) :
    collapseWsAux false u = u :=
  (collapseAux_fix u h).1

theorem mem_strip {c : Char} {l : List Char} (h : c ∈ stripChars l) : c ∈ l := by
  unfold stripChars at h
  rw [List.mem_reverse] at h
  have h2 := (List.dropWhile_sublist _).subset h
  rw [List.mem_reverse] at h2
  exact (List.dropWhile_sublist _).subset h2

theorem startsWithCl_sub : ∀ {needle hay : List Char},
    startsWithCl needle hay = true → ∀ c ∈ needle, c ∈ hay
  | [], _, _, c, hc => by simp at hc
  | a :: as, [], h, c, hc => by simp [startsWithCl] at h
  | a :: as, b :: bs, h, c, hc => by
    rw [show startsWithCl (a :: as) (b :: bs)
      = ((a == b) && startsWithCl as bs) from rfl, Bool.and_eq_true] at h
    obtain ⟨hab, hrest⟩ := h
    rcases List.mem_cons.mp hc with rfl | hc2
    · rw [List.mem_cons]
      exact Or.inl (eq_of_beq hab)
    · exact List.mem_cons_of_mem b (startsWithCl_sub hrest c hc2)

theorem replaceAllF_id {t0 : Char} {trest rep : List Char} {q : Char}
    (hq : q ∈ t0 :: trest) :
    ∀ (fuel : Nat) (l : List Char), q ∉ l →
      replaceAllF t0 trest rep fuel l = l
  | 0, l, _ => rfl
  | _ + 1, [], _ => rfl
  | fuel + 1, c :: rest, hnl => by
    rw [show replaceAllF t0 trest rep (fuel + 1) (c :: rest)
      = if startsWithCl (t0 :: trest) (c :: rest) then
          rep ++ replaceAllF t0 trest rep fuel (rest.drop trest.length)
        else c :: replaceAllF t0 trest rep fuel rest from rfl]
    have hst : startsWithCl (t0 :: trest) (c :: rest) = false := by
      cases hs : startsWithCl (t0 :: trest) (c :: rest) with
      | false => rfl
      | true => exact absurd (startsWithCl_sub hs q hq) hnl
    rw [hst, if_neg (by simp)]
    congr 1
    exact replaceAllF_id hq fuel rest (fun hm => hnl (List.mem_cons_of_mem c hm))

theorem replaceAll_id {tgt rep l : List Char} {q : Char} (hq : q ∈ tgt)
    (hl : q ∉ l) : replaceAll tgt rep l = l := by
  cases tgt with
  | nil => rfl
  | cons t0 trest => exact replaceAllF_id hq l.length l hl

theorem quote_mem_target : '"' ∈ DN.encoding_fix_target := by decide

theorem norm_text_nil : DN.normalize_text "" = "" := by
  unfold DN.normalize_text
  rw [if_pos rfl]

theorem norm_text_idem {t : String} (h : ctrlQuoteFree t.data) :
    DN.normalize_text (DN.normalize_text t) = DN.normalize_text t := by
  by_cases ht : t = ""
  · rw [ht, norm_text_nil, norm_text_nil]
  · have hu_free : ctrlQuoteFree (collapseWs (stripChars t.data)) := by
      intro c hc
      rcases mem_collapseAux false (stripChars t.data) c hc with h2 | h2
      · exact h c (mem_strip h2)
      · rw [h2]
        exact ⟨by decide, by decide⟩
    have hq : '"' ∉ collapseWs (stripChars t.data) :=
      fun hin => (hu_free '"' hin).2 rfl
    have hrepl : replaceAll DN.encoding_fix_target ['\x27']
        (collapseWs (stripChars t.data)) = collapseWs (stripChars t.data) :=
      replaceAll_id quote_mem_target hq
    have hfilt : (collapseWs (stripChars t.data)).filter (fun c => ¬ isCtrlChar c)
        = collapseWs (stripChars t.data) :=
      List.filter_eq_self.mpr (fun a ha => by simp [(hu_free a ha).1])
    have ho : DN.normalize_text t = ⟨collapseWs (stripChars t.data)⟩ := by
      unfold DN.normalize_text
      rw [if_neg ht]
      show (⟨(replaceAll DN.encoding_fix_target ['\x27']
        (collapseWs (stripChars t.data))).filter (fun c => ¬ isCtrlChar c)⟩
        : String) = _
      rw [hrepl, hfilt]
    rw [ho]
    by_cases hu0 : (⟨collapseWs (stripChars t.data)⟩ : String) = ""
    · rw [hu0, norm_text_nil]
    · have hnl : noLeadWs (collapseWs (stripChars t.data)) :=
        noLead_collapse (strip_noLead t.data)
      have hnt : noTrailWs (collapseWs (stripChars t.data)) :=
        noTrail_collapse (strip_noTrail t.data)
      have hstrip2 : stripChars (collapseWs (stripChars t.data))
          = collapseWs (stripChars t.data) := strip_of_noEdge hnl hnt
      have hcoll2 : collapseWs (collapseWs (stripChars t.data))
          = collapseWs (stripChars t.data) :=
        collapse_fix _ (spacedOk_collapseAux false (stripChars t.data))
      unfold DN.normalize_text
      rw [if_neg hu0]
      show (⟨(replaceAll DN.encoding_fix_target ['\x27']
        (collapseWs (stripChars (collapseWs (stripChars t.data))))).filter
        (fun c => ¬ isCtrlChar c)⟩ : String) = _
      rw [hstrip2, hcoll2, hrepl, hfilt]

theorem loc_step_idem (loc : String) :
    (if (if loc ≠ "" then DN.normalize_location loc else loc) ≠ ""
      then DN.normalize_location (if loc ≠ "" then DN.normalize_location loc else loc)
      else (if loc ≠ "" then DN.normalize_location loc else loc))
    = (if loc ≠ "" then DN.normalize_location loc else loc) := by
  by_cases h0 : loc = ""
  · subst h0
    rw [if_neg (fun hc => hc rfl), if_neg (fun hc => hc rfl)]
  · rw [if_pos h0]
    by_cases h1 : DN.normalize_location loc = ""
    · rw [if_neg (by simp [h1])]
    · rw [if_pos h1]
      exact norm_location_idem loc

theorem sectors_aux_acc_ne : ∀ (L acc : List String), acc ≠ [] →
    DN.normalize_sectors_aux acc L ≠ []
  | [], acc, h => h
  | x :: rest, acc, h => by
    cases hlk : DN.sector_mappings.lookup (lcStripStr x) with
    | some v =>
      rw [sectors_aux_some hlk]
      refine sectors_aux_acc_ne rest _ ?_
      split_ifs with hm
      · exact h
      · simp
    | none =>
      rw [sectors_aux_none hlk]
      refine sectors_aux_acc_ne rest _ ?_
      split_ifs with hm
      · exact h
      · simp

theorem normalize_sectors_ne_nil {sect : List String} (h : sect ≠ []) :
    DN.normalize_sectors sect ≠ [] := by
  cases sect with
  | nil => exact absurd rfl h
  | cons x rest =>
    show DN.normalize_sectors_aux [] (x :: rest) ≠ []
    cases hlk : DN.sector_mappings.lookup (lcStripStr x) with
    | some v =>
      rw [sectors_aux_some hlk]
      exact sectors_aux_acc_ne rest _ (by simp)
    | none =>
      rw [sectors_aux_none hlk]
      exact sectors_aux_acc_ne rest _ (by simp)

theorem sect_step_idem (sect : List String) :
    (if ¬ (if ¬ sect.isEmpty then DN.normalize_sectors sect else sect).isEmpty
      then DN.normalize_sectors
        (if ¬ sect.isEmpty then DN.normalize_sectors sect else sect)
      else (if ¬ sect.isEmpty then DN.normalize_sectors sect else sect))
    = (if ¬ sect.isEmpty then DN.normalize_sectors sect else sect) := by
  by_cases h0 : sect.isEmpty = true
  · rw [if_neg (by simp [h0])]
  · replace h0 : sect.isEmpty = false := by simpa using h0
    have hne : sect ≠ [] := by
      intro hnil
      rw [hnil] at h0
      simp at h0
    have hne2 : DN.normalize_sectors sect ≠ [] := normalize_sectors_ne_nil hne
    rw [if_pos (by simp [List.isEmpty_iff, h0, hne2])]
    rw [if_pos (by simp [h0])]
    exact norm_sectors_idem sect

/-- C9: normalization is idempotent on the location and sector fields for
every event without exception, and on the two text fields whenever they
contain no control character and no double quote (corrected: the
control-character filter runs after whitespace collapsing, so a removed
control character can leave a double space that a second pass collapses, and
the encoding-fix replacement can act on text containing double quotes; on
control- and quote-free text the normalizer is idempotent, and then the whole
normalized event is a fixed point). -/
theorem claim_C9 (now1 now2 : String) (e : DV.Event) :
    ((DN.normalize_event now2 (DN.normalize_event now1 e).event).event.location
        = (DN.normalize_event now1 e).event.location
      ∧ (DN.normalize_event now2
            (DN.normalize_event now1 e).event).event.impact_sectors
        = (DN.normalize_event now1 e).event.impact_sectors)
    ∧ (ctrlQuoteFree e.title.data → ctrlQuoteFree e.description.data →
        (DN.normalize_event now2 (DN.normalize_event now1 e).event).event
          = (DN.normalize_event now1 e).event) := by
  obtain ⟨ti, de, sev, loc, sect, url⟩ := e
  refine ⟨⟨loc_step_idem loc, sect_step_idem sect⟩, ?_⟩
  intro h1 h2
  replace h1 : ctrlQuoteFree ti.data := h1
  replace h2 : ctrlQuoteFree de.data := h2
  show (⟨DN.normalize_text (DN.normalize_text ti),
         DN.normalize_text (DN.normalize_text de), sev,
         (if (if loc ≠ "" then DN.normalize_location loc else loc) ≠ ""
           then DN.normalize_location
             (if loc ≠ "" then DN.normalize_location loc else loc)
           else (if loc ≠ "" then DN.normalize_location loc else loc)),
         (if ¬ (if ¬ sect.isEmpty then DN.normalize_sectors sect else sect).isEmpty
           then DN.normalize_sectors
             (if ¬ sect.isEmpty then DN.normalize_sectors sect else sect)
           else (if ¬ sect.isEmpty then DN.normalize_sectors sect else sect)),
         url⟩ : DV.Event)
      = ⟨DN.normalize_text ti, DN.normalize_text de, sev,
         (if loc ≠ "" then DN.normalize_location loc else loc),
         (if ¬ sect.isEmpty then DN.normalize_sectors sect else sect), url⟩
  rw [norm_text_idem h1, norm_text_idem h2, loc_step_idem, sect_step_idem]

set_option maxRecDepth 1000000 in
theorem claim_C9_witness :
    ctrlQuoteFree cleanTextEvent.title.data
      ∧ ctrlQuoteFree cleanTextEvent.description.data
      ∧ (DN.normalize_event "t2" (DN.normalize_event "t1" cleanTextEvent).event).event
          = (DN.normalize_event "t1" cleanTextEvent).event := by
  have hc : ∀ c ∈ cleanTextEvent.title.data, isCtrlChar c = false ∧ c ≠ '"' := by
    decide
  have hd : ∀ c ∈ cleanTextEvent.description.data,
      isCtrlChar c = false ∧ c ≠ '"' := by decide
  exact ⟨hc, hd, (claim_C9 "t1" "t2" cleanTextEvent).2 hc hd⟩

set_option maxRecDepth 1000000 in
theorem claim_C9_counterexample :
    (DN.normalize_event "t2" (DN.normalize_event "t1" ctrlTextEvent).event).event
      ≠ (DN.normalize_event "t1" ctrlTextEvent).event := by decide
